import Mathlib

/-!
Verification of the earthquake-overlay engine of the
`threejs-dem-visualizer-earthquakes` repository.

The repository contains three revisions of the overlay class
`EarthquakeOverlay`:

* the pooled (reconciling) revision, whose `visualize` keeps a persistent
  `earthquakeVisualMap` from feature id to its sphere/line visuals
  (file `part_003`);
* an intermediate pooled revision whose `visualize` computes an inline
  age color diverging from the shared `ageColor` helper (file `part_002`);
* the rebuild-every-frame revision, whose `visualize` disposes and
  recreates every child on each call (file `part_004`).

JavaScript numbers are modelled by exact rationals `ℚ`; the piecewise
formulas of the source contain only field operations, `Math.max`,
`Math.min`, `Math.floor` and `Math.round`, all of which are translated
exactly.  Scene objects (`Mesh`, `Line`) are modelled by allocation
tokens (`ℕ`) drawn from a monotone counter, so that "same object
identity" is token equality.  The overlay instance state is an explicit
record, and every method becomes a state-passing function.
-/

set_option maxRecDepth 8000

namespace EQOverlay

/-- A scene-space vector with the three numeric channels used by the
overlay (positions and rgb colors). -/
structure Vec3 where
  x : ℚ
  y : ℚ
  z : ℚ
deriving DecidableEq

/-- One earthquake event (GeoJSON feature): identifier, geographic
coordinates `[lon, lat, depth]`, magnitude and occurrence timestamp in
milliseconds since epoch. -/
structure Feature where
  fid : ℕ
  lon : ℚ
  lat : ℚ
  depth : ℚ
  mag : ℚ
  time : ℚ
deriving DecidableEq

/-- Terrain extent: geographic bounding box plus the scene-space width
and height of the terrain surface. -/
structure TerrainBounds where
  minLat : ℚ
  maxLat : ℚ
  minLon : ℚ
  maxLon : ℚ
  width : ℚ
  height : ℚ
deriving DecidableEq

/-- `EarthquakeOverlay.geoToTerrain` (identical in all three revisions):
lerp the geographic coordinates into the terrain extent, re-center,
mirror `x`, and scale the depth (km) by the terrain's 25 m-per-unit
vertical encoding. -/
def geoToTerrain (lat lon depth : ℚ) (tb : TerrainBounds) : Vec3 :=
  let x := (lon - tb.minLon) / (tb.maxLon - tb.minLon) * tb.width - tb.width / 2
  let y := (lat - tb.minLat) / (tb.maxLat - tb.minLat) * tb.height - tb.height / 2
  let x2 := -x
  let depthInMeters := depth * 1000
  let z := -(depthInMeters / 25)
  ⟨x2, y, z⟩

/-- The `scale` computation inside the pooled `visualize`
(`let scale = 1.0; if (age >= 0 && age < 1) scale = age;
else if (age < 0) scale = 0;`). -/
def visualScale (age : ℚ) : ℚ :=
  if 0 ≤ age ∧ age < 1 then age
  else if age < 0 then 0
  else 1

/-- The `opacity` computation inside the pooled `visualize`
(`let opacity = 1.0; if (age > 48) opacity = max(0.1, max(0, 1 - (age-48)/120));
else if (age < 0) opacity = 0;`). -/
def visualOpacity (age : ℚ) : ℚ :=
  if 48 < age then
    let fade := max 0 (1 - (age - 48) / (24 * 5))
    max (1/10) fade
  else if age < 0 then 0
  else 1

/-- The bloom multiplier of the pooled `visualize` (part_003 and
part_002): 12 on `[0, 2]`, two linear ramps, and 1.2 otherwise
(the final `else` also covers negative ages). -/
def bloomMultiplier (age : ℚ) : ℚ :=
  if age ≤ 2 ∧ 0 ≤ age then 12
  else if 2 < age ∧ age ≤ 12 then 12 - (age - 2) / 10 * 6
  else if 12 < age ∧ age ≤ 48 then 6 - (age - 12) / 36 * 4
  else 6/5

/-- The bloom multiplier of the rebuild-every-frame revision
(part_004): same ramps but the first branch is `age <= 2` without the
`age >= 0` conjunct, so negative ages get 12 instead of 1.2. -/
def bloomMultiplierRebuild (age : ℚ) : ℚ :=
  if age ≤ 2 then 12
  else if age ≤ 12 then 12 - (age - 2) / (12 - 2) * 6
  else if age ≤ 48 then 6 - (age - 12) / (48 - 12) * 4
  else 6/5

/-- `EarthquakeOverlay.ageColor`, textually identical in all three
revisions: hex color by age band, with the green channel
`Math.floor(165 * (age - 2) / 46)` on the middle band. -/
def ageColor (age : ℚ) : ℕ :=
  if age < 0 then 0xff0000
  else if age ≤ 2 then 0xff0000
  else if age ≤ 48 then
    let normalizedAge := (age - 2) / (48 - 2)
    let g := (Int.floor (165 * normalizedAge)).toNat
    (255 <<< 16) ||| (g <<< 8) ||| 0
  else 0xffff00

/-- The inline base-color computation of part_002's `visualize`
(lines 162-179), which does not call `ageColor`: black for negative
ages, the red-to-orange ramp to 48 h, then a red-to-blue ramp to 168 h
and a constant `0x0080ff` beyond. -/
def visColorRev2 (age : ℚ) : ℕ :=
  if age < 0 then 0x000000
  else if age ≤ 2 then 0xff0000
  else if age ≤ 48 then
    let normalizedAge := (age - 2) / (48 - 2)
    let g := (Int.floor (165 * normalizedAge)).toNat
    (255 <<< 16) ||| (g <<< 8)
  else if age ≤ 168 then
    let t := min 1 ((age - 48) / (168 - 48))
    let r := (round (255 * (1 - t))).toNat
    let g := (round (255 * (1 - t) + 128 * t)).toNat
    let b := (round (255 * t)).toNat
    (r <<< 16) ||| (g <<< 8) ||| b
  else 0x0080ff

/-- `new THREE.Color(hex)`: split a hex value into rgb channels in
`[0, 1]`. -/
def hexToColor (hex : ℕ) : Vec3 :=
  ⟨(((hex >>> 16) &&& 255 : ℕ) : ℚ) / 255,
   (((hex >>> 8) &&& 255 : ℕ) : ℚ) / 255,
   ((hex &&& 255 : ℕ) : ℚ) / 255⟩

/-- `Color.multiplyScalar`. -/
def scaleColor (c : Vec3) (k : ℚ) : Vec3 :=
  ⟨c.x * k, c.y * k, c.z * k⟩

/-- The mutable appearance of one Visual Entry: sphere position (with
the source's y/z swap already applied), sphere scale, sphere material
color and opacity, the two line endpoints, line material color and
opacity. -/
structure EntryFields where
  pos : Vec3
  scale : ℚ
  color : Vec3
  opacity : ℚ
  lineTop : Vec3
  lineBottom : Vec3
  lineColor : Vec3
  lineOpacity : ℚ
deriving DecidableEq

/-- One value of `earthquakeVisualMap`: the sphere and line scene
objects (modelled by allocation tokens) plus the "rest" snapshots
(`originalColor`, `originalLineColor`, `originalOpacity`) captured at
creation time, and the mutable fields. -/
structure Entry where
  sphereTok : ℕ
  lineTok : ℕ
  restColor : Vec3
  restLineColor : Vec3
  restOpacity : ℚ
  fields : EntryFields
deriving DecidableEq

/-- The full mutable state of an `EarthquakeOverlay` instance.  The
scene-graph `group` is the list of tokens of its children, `disposed`
the tokens whose geometry/material have been disposed, and `counter`
the allocation counter for fresh tokens. -/
structure OverlayState where
  earthquakeData : List Feature
  timeRangeStart : Option ℚ
  timeRangeEnd : Option ℚ
  currentTime : Option ℚ
  isPlaying : Bool
  playbackSpeed : ℚ
  lastFrameTime : ℚ
  animationScheduled : Bool
  manuallyPaused : Bool
  visible : Bool
  bloomLayer : ℕ
  selectedFeatureId : Option ℕ
  pool : List (ℕ × Entry)
  group : List ℕ
  disposed : List ℕ
  counter : ℕ
deriving DecidableEq

/-- The constructor state of `EarthquakeOverlay`. -/
def initState : OverlayState :=
  { earthquakeData := []
    timeRangeStart := none
    timeRangeEnd := none
    currentTime := none
    isPlaying := false
    playbackSpeed := 1
    lastFrameTime := 0
    animationScheduled := false
    manuallyPaused := false
    visible := true
    bloomLayer := 1
    selectedFeatureId := none
    pool := []
    group := []
    disposed := []
    counter := 0 }

/-- `Map.get` on the visual pool. -/
def lookupPool : List (ℕ × Entry) → ℕ → Option Entry
  | [], _ => none
  | p :: ps, fid => if p.1 = fid then some p.2 else lookupPool ps fid

/-- In-place mutation of the entry stored under `fid` (the JS `Map`
has unique keys; rewriting the association pairs under that key is the
same operation). -/
def updatePool : List (ℕ × Entry) → ℕ → EntryFields → List (ℕ × Entry)
  | [], _, _ => []
  | p :: ps, fid, fields =>
      if p.1 = fid then
        (p.1, { p.2 with fields := fields }) :: updatePool ps fid fields
      else p :: updatePool ps fid fields

/-- The identifiers currently present in the pool. -/
def poolKeys (pool : List (ℕ × Entry)) : List ℕ :=
  pool.map Prod.fst

/-- The scene objects owned by an entry. -/
def entryToks (e : Entry) : List ℕ :=
  [e.sphereTok, e.lineTok]

/-- JS truthiness of `timeFilter`: `null` and `0` are falsy. -/
def truthyOpt (o : Option ℚ) : Bool :=
  match o with
  | none => false
  | some x => decide (x ≠ 0)

/-- `referenceTime = timeFilter || Date.now()`. -/
def refTime (tf : Option ℚ) (now : ℚ) : ℚ :=
  match tf with
  | none => now
  | some t => if t = 0 then now else t

/-- The guard `if (timeFilter && time > timeFilter) return;`: an event
is processed unless the filter is truthy and the event is later than
it. -/
def passesFilter (tf : Option ℚ) (time : ℚ) : Bool :=
  match tf with
  | none => true
  | some t => if t = 0 then true else decide (time ≤ t)

/-- The per-event appearance computed by the pooled `visualize`
(part_003, lines 101-181): position, age-derived scale/opacity, the
`ageColor`-based bloom color, and the depth-indicator line data. -/
def deriveFields (tb : TerrainBounds) (rt : ℚ) (f : Feature) : EntryFields :=
  let position := geoToTerrain f.lat f.lon f.depth tb
  let ageInHours := (rt - f.time) / (1000 * 60 * 60)
  let scale := visualScale ageInHours
  let opacity := visualOpacity ageInHours
  let baseColor := ageColor ageInHours
  let bloomColor := scaleColor (hexToColor baseColor) (bloomMultiplier ageInHours)
  { pos := ⟨position.x, position.z, position.y⟩
    scale := 3 * scale
    color := bloomColor
    opacity := opacity
    lineTop := ⟨position.x, 0, position.y⟩
    lineBottom := ⟨position.x, position.z, position.y⟩
    lineColor := scaleColor (hexToColor baseColor) 2
    lineOpacity := opacity }

/-- The entry created for a not-yet-pooled event: fresh sphere and line
tokens from the counter, rest snapshots from the just-computed fields
(the material is created with opacity 1.0). -/
def freshEntry (s : OverlayState) (fields : EntryFields) : Entry :=
  { sphereTok := s.counter
    lineTok := s.counter + 1
    restColor := fields.color
    restLineColor := fields.lineColor
    restOpacity := 1
    fields := fields }

/-- Processing of one passing event inside the pooled `visualize`:
reuse the pooled entry when present (mutating only its fields),
otherwise allocate a sphere and a line, add them to the group, snapshot
the rest appearance, and insert the entry; either way record the id as
active. -/
def visStep (tb : TerrainBounds) (rt : ℚ) (acc : OverlayState × List ℕ)
    (f : Feature) : OverlayState × List ℕ :=
  let s := acc.1
  let fields := deriveFields tb rt f
  if (lookupPool s.pool f.fid).isSome then
    ({ s with pool := updatePool s.pool f.fid fields }, acc.2 ++ [f.fid])
  else
    ({ s with pool := s.pool ++ [(f.fid, freshEntry s fields)]
              group := s.group ++ [s.counter, s.counter + 1]
              counter := s.counter + 2 }, acc.2 ++ [f.fid])

/-- The `earthquakeData.forEach` loop of the pooled `visualize`,
threading the state and the accumulated `activeIds`. -/
def visLoop (tb : TerrainBounds) (rt : ℚ) (tf : Option ℚ) :
    List Feature → OverlayState × List ℕ → OverlayState × List ℕ
  | [], acc => acc
  | f :: fs, acc =>
      visLoop tb rt tf fs
        (if passesFilter tf f.time then visStep tb rt acc f else acc)

/-- The ids recorded in `activeIds` by one pass: the ids of the events
that pass the time filter, in order. -/
def activeList (tf : Option ℚ) : List Feature → List ℕ
  | [] => []
  | f :: fs =>
      if passesFilter tf f.time then f.fid :: activeList tf fs
      else activeList tf fs

/-- The cleanup loop of the pooled `visualize`: every pooled entry
whose id is not active is removed from the group, its geometry and
material disposed, and dropped from the map. -/
def cleanupPool (act : List ℕ) (s : OverlayState) : OverlayState :=
  let evicted := s.pool.filter (fun p => decide (p.1 ∉ act))
  let evictedToks := evicted.flatMap (fun p => entryToks p.2)
  { s with pool := s.pool.filter (fun p => decide (p.1 ∈ act))
           group := s.group.filter (fun t => decide (t ∉ evictedToks))
           disposed := s.disposed ++ evictedToks }

/-- The selected entry's override appearance (white, fully opaque). -/
def highlightEntry (e : Entry) : Entry :=
  { e with fields :=
      { e.fields with color := ⟨1, 1, 1⟩, lineColor := ⟨1, 1, 1⟩,
                      opacity := 1, lineOpacity := 1 } }

/-- Restoring an entry to its rest appearance. -/
def restoreEntry (e : Entry) : Entry :=
  { e with fields :=
      { e.fields with color := e.restColor, lineColor := e.restLineColor,
                      opacity := e.restOpacity, lineOpacity := e.restOpacity } }

/-- `EarthquakeOverlay.highlightEarthquake`: restore every other entry
and paint the selected one white. -/
def highlightEarthquake (fid : ℕ) (s : OverlayState) : OverlayState :=
  { s with pool := s.pool.map (fun p =>
      if p.1 = fid then (p.1, highlightEntry p.2) else (p.1, restoreEntry p.2)) }

/-- `EarthquakeOverlay.unhighlightEarthquake`. -/
def unhighlightEarthquake (fid : ℕ) (s : OverlayState) : OverlayState :=
  { s with pool := s.pool.map (fun p =>
      if p.1 = fid then (p.1, restoreEntry p.2) else p) }

/-- The re-highlight step at the end of the pooled `visualize`. -/
def applySelection (s : OverlayState) : OverlayState :=
  match s.selectedFeatureId with
  | some fid =>
      if (lookupPool s.pool fid).isSome then highlightEarthquake fid s else s
  | none => s

/-- The pooled `visualize` (part_003, lines 92-203): early return on an
empty event list, one pass over the events, cleanup of stale entries,
then re-highlight of the current selection. -/
def visualize (tb : TerrainBounds) (tf : Option ℚ) (now : ℚ)
    (s : OverlayState) : OverlayState :=
  if s.earthquakeData = [] then s
  else
    let rt := refTime tf now
    let r := visLoop tb rt tf s.earthquakeData (s, [])
    applySelection (cleanupPool r.2 r.1)

/-- The numeric visual state one `visualize` pass assigns to a marker:
what claim C8 compares between the two revisions. -/
structure MarkerState where
  pos : Vec3
  scaleVal : ℚ
  color : Vec3
  opacity : ℚ
  lineColor : Vec3
  lineOpacity : ℚ
deriving DecidableEq

/-- The marker state assigned by the pooled revision (projection of
`deriveFields`). -/
def markerStatePooled (tb : TerrainBounds) (rt : ℚ) (f : Feature) : MarkerState :=
  let d := deriveFields tb rt f
  ⟨d.pos, d.scale, d.color, d.opacity, d.lineColor, d.lineOpacity⟩

/-- The marker state assigned by the rebuild-every-frame revision
(part_004, lines 188-301): same position and `ageColor`-based colors,
but constant `sphere.scale.setScalar(3.0)` and constant opacity 1. -/
def markerStateRebuild (tb : TerrainBounds) (rt : ℚ) (f : Feature) : MarkerState :=
  let position := geoToTerrain f.lat f.lon f.depth tb
  let ageInHours := (rt - f.time) / (1000 * 60 * 60)
  let bloomColor := scaleColor (hexToColor (ageColor ageInHours))
    (bloomMultiplierRebuild ageInHours)
  ⟨⟨position.x, position.z, position.y⟩, 3, bloomColor, 1,
    scaleColor (hexToColor (ageColor ageInHours)) 2, 1⟩

/-- `EarthquakeOverlay.clearData`: empties the event list, removes and
disposes every child of the group, resets the time range and cursor —
and never touches `earthquakeVisualMap`. -/
def clearData (s : OverlayState) : OverlayState :=
  { s with earthquakeData := []
           group := []
           disposed := s.disposed ++ s.group
           timeRangeStart := none
           timeRangeEnd := none
           currentTime := none }

/-- Insertion into a time-sorted list (model of the comparator
`(a, b) => a.properties.time - b.properties.time`). -/
def insertByTime (f : Feature) : List Feature → List Feature
  | [] => [f]
  | g :: gs => if f.time ≤ g.time then f :: g :: gs else g :: insertByTime f gs

/-- Ascending sort of the fetched features by timestamp. -/
def sortByTime : List Feature → List Feature
  | [] => []
  | f :: fs => insertByTime f (sortByTime fs)

/-- The earliest timestamp of a feature list (0 on the empty list,
which is never used). -/
def minTimeD : List Feature → ℚ
  | [] => 0
  | f :: fs => fs.foldl (fun m g => min m g.time) f.time

/-- The latest timestamp of a feature list. -/
def maxTimeD : List Feature → ℚ
  | [] => 0
  | f :: fs => fs.foldl (fun m g => max m g.time) f.time

/-- `EarthquakeOverlay.loadData`, modelled on the already-fetched
feature list: store the sorted events and, only when at least one
event was returned, recompute the time range and reset the cursor. -/
def loadData (features : List Feature) (s : OverlayState) : OverlayState :=
  match sortByTime features with
  | [] => { s with earthquakeData := [] }
  | f :: rest =>
      { s with earthquakeData := f :: rest
               timeRangeStart := some f.time
               timeRangeEnd := some ((f :: rest).getLastD f).time
               currentTime := some f.time }

/-- `EarthquakeOverlay.animate`: one playback tick.  Advances the
cursor by `delta/1000 * playbackSpeed * dayInMs`, clamps at the range
end (stopping playback), re-visualizes at the new cursor, and schedules
the next tick only while still playing. -/
def animate (tb : TerrainBounds) (now : ℚ) (s : OverlayState) : OverlayState :=
  if s.isPlaying then
    let deltaTime := now - s.lastFrameTime
    let dayInMs : ℚ := 24 * 60 * 60 * 1000
    let ct := s.currentTime.getD 0 + deltaTime / 1000 * s.playbackSpeed * dayInMs
    let reachedEnd := decide (s.timeRangeEnd.getD 0 ≤ ct)
    let s₁ :=
      { s with lastFrameTime := now
               currentTime := if reachedEnd then s.timeRangeEnd else some ct
               isPlaying := if reachedEnd then false else s.isPlaying }
    let s₂ := visualize tb s₁.currentTime now s₁
    { s₂ with animationScheduled := s₂.isPlaying }
  else s

/-- `EarthquakeOverlay.play`: no-op without a truthy time range or
after a manual pause; otherwise start playing and run a first tick. -/
def play (tb : TerrainBounds) (now : ℚ) (s : OverlayState) : OverlayState :=
  if ¬ truthyOpt s.timeRangeStart ∨ ¬ truthyOpt s.timeRangeEnd then s
  else if s.manuallyPaused then s
  else
    animate tb now
      { s with isPlaying := true, manuallyPaused := false, lastFrameTime := now }

/-- `EarthquakeOverlay.pause`: stop playing, set the manual-pause flag
and cancel any scheduled tick. -/
def pause (s : OverlayState) : OverlayState :=
  { s with isPlaying := false, manuallyPaused := true, animationScheduled := false }

/-- `EarthquakeOverlay.stop`: cancel ticking, reset the cursor to the
range start and re-visualize. -/
def stop (tb : TerrainBounds) (now : ℚ) (s : OverlayState) : OverlayState :=
  let s₁ := { s with isPlaying := false, animationScheduled := false,
                     currentTime := s.timeRangeStart }
  visualize tb s₁.currentTime now s₁

/-- `EarthquakeOverlay.setTime` (seek). -/
def setTime (t : ℚ) (tb : TerrainBounds) (now : ℚ) (s : OverlayState) :
    OverlayState :=
  visualize tb (some t) now { s with currentTime := some t }

/-- `EarthquakeOverlay.setPlaybackSpeed`. -/
def setPlaybackSpeed (v : ℚ) (s : OverlayState) : OverlayState :=
  { s with playbackSpeed := v }

/-- `EarthquakeOverlay.toggle`. -/
def toggle (s : OverlayState) : OverlayState :=
  { s with visible := !s.visible }

/-- `EarthquakeOverlay.setBloomLayer`. -/
def setBloomLayer (n : ℕ) (s : OverlayState) : OverlayState :=
  { s with bloomLayer := n }

/-- `EarthquakeOverlay.setSelectedEarthquake`. -/
def setSelectedEarthquake (fid : Option ℕ) (s : OverlayState) : OverlayState :=
  if s.selectedFeatureId = fid then s
  else
    let s₁ :=
      match s.selectedFeatureId with
      | some old => unhighlightEarthquake old s
      | none => s
    let s₂ := { s₁ with selectedFeatureId := fid }
    match fid with
    | some f => highlightEarthquake f s₂
    | none => s₂

/-- `EarthquakeOverlay.clearSelectedEarthquake`. -/
def clearSelectedEarthquake (tb : TerrainBounds) (now : ℚ) (s : OverlayState) :
    OverlayState :=
  match s.selectedFeatureId with
  | none => s
  | some old =>
      let s₁ := unhighlightEarthquake old s
      let s₂ := { s₁ with selectedFeatureId := none }
      visualize tb s₂.currentTime now s₂

/-- One call through the overlay's public interface. -/
inductive OverlayOp where
  | playOp (tb : TerrainBounds) (now : ℚ)
  | pauseOp
  | stopOp (tb : TerrainBounds) (now : ℚ)
  | setTimeOp (t : ℚ) (tb : TerrainBounds) (now : ℚ)
  | clearDataOp
  | loadDataOp (features : List Feature)
  | setPlaybackSpeedOp (v : ℚ)
  | visualizeOp (tb : TerrainBounds) (tf : Option ℚ) (now : ℚ)
  | animateOp (tb : TerrainBounds) (now : ℚ)
  | toggleOp
  | setBloomLayerOp (n : ℕ)
  | setSelectedOp (fid : Option ℕ)
  | clearSelectedOp (tb : TerrainBounds) (now : ℚ)
  | highlightOp (fid : ℕ)
  | unhighlightOp (fid : ℕ)

/-- Interpreting one public call on the overlay state. -/
def applyOp (s : OverlayState) : OverlayOp → OverlayState
  | .playOp tb now => play tb now s
  | .pauseOp => pause s
  | .stopOp tb now => stop tb now s
  | .setTimeOp t tb now => setTime t tb now s
  | .clearDataOp => clearData s
  | .loadDataOp features => loadData features s
  | .setPlaybackSpeedOp v => setPlaybackSpeed v s
  | .visualizeOp tb tf now => visualize tb tf now s
  | .animateOp tb now => animate tb now s
  | .toggleOp => toggle s
  | .setBloomLayerOp n => setBloomLayer n s
  | .setSelectedOp fid => setSelectedEarthquake fid s
  | .clearSelectedOp tb now => clearSelectedEarthquake tb now s
  | .highlightOp fid => highlightEarthquake fid s
  | .unhighlightOp fid => unhighlightEarthquake fid s

/-- Same scene objects and rest snapshots: the entry identity claim C3
is about. -/
def sameVisual (e₁ e₂ : Entry) : Prop :=
  e₁.sphereTok = e₂.sphereTok ∧ e₁.lineTok = e₂.lineTok ∧
  e₁.restColor = e₂.restColor ∧ e₁.restLineColor = e₂.restLineColor ∧
  e₁.restOpacity = e₂.restOpacity

/-- Lifting `sameVisual` to pool lookups. -/
def optionSameVisual : Option Entry → Option Entry → Prop
  | none, none => True
  | some e₁, some e₂ => sameVisual e₁ e₂
  | _, _ => False

/-- A terrain extent used in concrete witnesses. -/
def tbW : TerrainBounds := ⟨50, 72, -190, -129, 100, 80⟩

/-- A concrete event used in witnesses. -/
def featW : Feature := ⟨1, -150, 60, 10, 5, 100⟩

/-- Zero vector. -/
def vzero : Vec3 := ⟨0, 0, 0⟩

/-- A concrete pooled entry used in witnesses (tokens 0 and 1). -/
def entryW : Entry :=
  { sphereTok := 0, lineTok := 1, restColor := vzero, restLineColor := vzero,
    restOpacity := 1, fields := ⟨vzero, 0, vzero, 1, vzero, vzero, vzero, 1⟩ }

/-- A state holding one stale pooled entry under id 5 (as left behind
by an earlier `visualize`) and an empty loaded event list. -/
def staleState : OverlayState :=
  { initState with pool := [(5, entryW)], group := [0, 1], counter := 2 }

/-- `staleState` after a load that returned one event (id 1, time 100). -/
def loadedStaleState : OverlayState :=
  { staleState with earthquakeData := [featW] }

/-- A state holding one stale pooled entry under id 1 (matching
`featW`). -/
def stale1State : OverlayState :=
  { initState with pool := [(1, entryW)], group := [0, 1], counter := 2 }

/-- An event that is 100 hours old at reference time `360000000`. -/
def featOld : Feature := ⟨2, -150, 60, 10, 5, 0⟩

/-- A state with a previously loaded time range, to feed a load that
returns zero events. -/
def staleRangeState : OverlayState :=
  { initState with earthquakeData := [featW], timeRangeStart := some 5,
                   timeRangeEnd := some 10, currentTime := some 7 }

/-- A playing state one tick away from the end of its time range. -/
def playW : OverlayState :=
  { initState with isPlaying := true, timeRangeStart := some 1,
                   timeRangeEnd := some 1000, currentTime := some 999,
                   lastFrameTime := 0, playbackSpeed := 1 }

/-- `ageInHours` as computed by both revisions of `visualize`. -/
def ageInHoursAt (rt time : ℚ) : ℚ :=
  (rt - time) / (1000 * 60 * 60)

/-!  Theorems.  -/

/-- Claim C1: the age-derived visual state computed inside the pooled
`visualize` satisfies the spec's piecewise reference definition: scale
is 0 for negative ages, `ageHours` on `[0, 1)` and 1 beyond; opacity is
0 for negative ages, 1 on `[0, 48]` and `max(0.1, 1 - (age-48)/120)`
beyond 48; the glow multiplier is 12 on `[0, 2]`, linear from 12 to 6
on `(2, 12]`, linear from 6 to 2 on `(12, 48]`, and 1.2 past 48. -/
theorem claim1_age_derived_visual_state (age : ℚ) :
    (age < 0 → visualScale age = 0) ∧
    (0 ≤ age → age < 1 → visualScale age = age) ∧
    (1 ≤ age → visualScale age = 1) ∧
    (age < 0 → visualOpacity age = 0) ∧
    (0 ≤ age → age ≤ 48 → visualOpacity age = 1) ∧
    (48 < age → visualOpacity age = max 0.1 (1 - (age - 48) / 120)) ∧
    (0 ≤ age → age ≤ 2 → bloomMultiplier age = 12) ∧
    (2 < age → age ≤ 12 →
      bloomMultiplier age = 12 + (age - 2) / (12 - 2) * (6 - 12)) ∧
    (12 < age → age ≤ 48 →
      bloomMultiplier age = 6 + (age - 12) / (48 - 12) * (2 - 6)) ∧
    (48 < age → bloomMultiplier age = 1.2) := by
  refine ⟨?_, ?_, ?_, ?_, ?_, ?_, ?_, ?_, ?_, ?_⟩
  · intro h
    simp only [visualScale]
    rw [if_neg (by rintro ⟨h0, -⟩; linarith), if_pos h]
  · intro h0 h1
    simp only [visualScale]
    rw [if_pos ⟨h0, h1⟩]
  · intro h1
    simp only [visualScale]
    rw [if_neg (by rintro ⟨-, h⟩; linarith), if_neg (by intro h; linarith)]
  · intro h
    simp only [visualOpacity]
    rw [if_neg (by intro hc; linarith), if_pos h]
  · intro h0 h48
    simp only [visualOpacity]
    rw [if_neg (by intro hc; linarith), if_neg (by intro hc; linarith)]
  · intro h
    simp only [visualOpacity]
    rw [if_pos h]
    have h1 : (24 : ℚ) * 5 = 120 := by norm_num
    rw [h1, ← max_assoc, max_eq_left (by norm_num : (0 : ℚ) ≤ 1/10)]
    norm_num
  · intro h0 h2
    simp only [bloomMultiplier]
    rw [if_pos ⟨h2, h0⟩]
  · intro h2 h12
    simp only [bloomMultiplier]
    rw [if_neg (by rintro ⟨hle, -⟩; linarith), if_pos ⟨h2, h12⟩]
    ring
  · intro h12 h48
    simp only [bloomMultiplier]
    rw [if_neg (by rintro ⟨hle, -⟩; linarith),
        if_neg (by rintro ⟨-, hle⟩; linarith), if_pos ⟨h12, h48⟩]
    ring
  · intro h48
    simp only [bloomMultiplier]
    rw [if_neg (by rintro ⟨hle, -⟩; linarith),
        if_neg (by rintro ⟨-, hle⟩; linarith),
        if_neg (by rintro ⟨-, hle⟩; linarith)]
    norm_num

/-- Witness for C1 at concrete ages 1/2 (scale band), 108 (opacity
fade band) and 7 (first glow ramp). -/
theorem claim1_age_derived_visual_state_witness :
    visualScale (1/2) = 1/2 ∧
    visualOpacity 108 = max 0.1 (1 - (108 - 48) / 120) ∧
    bloomMultiplier 7 = 12 + (7 - 2) / (12 - 2) * (6 - 12) := by
  refine ⟨?_, ?_, ?_⟩
  · exact (claim1_age_derived_visual_state (1/2)).2.1 (by norm_num) (by norm_num)
  · exact (claim1_age_derived_visual_state 108).2.2.2.2.2.1 (by norm_num)
  · exact (claim1_age_derived_visual_state 7).2.2.2.2.2.2.2.1 (by norm_num)
      (by norm_num)

/-- Helper: merging the disjoint hex bit fields used by `ageColor` into
plain arithmetic, for a green channel bounded by 165. -/
theorem hexOr_red_green (g : ℕ) (h : g ≤ 165) :
    (255 <<< 16) ||| (g <<< 8) ||| 0 = 0xff0000 + 256 * g := by
  interval_cases g <;> rfl

/-- Helper: the green channel of the middle `ageColor` band is bounded
by 165 when `age ≤ 48`. -/
theorem ageColor_green_le (age : ℚ) (h48 : age ≤ 48) :
    (Int.floor ((165 : ℚ) * ((age - 2) / (48 - 2)))).toNat ≤ 165 := by
  have hdiv : (age - 2) / (48 - 2) ≤ 1 := by
    rw [show (48 : ℚ) - 2 = 46 by norm_num,
        div_le_one (by norm_num : (0 : ℚ) < 46)]
    linarith
  have hle : (165 : ℚ) * ((age - 2) / (48 - 2)) ≤ 165 := by nlinarith
  have hfl : Int.floor ((165 : ℚ) * ((age - 2) / (48 - 2))) ≤ 165 := by
    have h165 : Int.floor ((165 : ℚ)) = 165 := by
      rw [Int.floor_eq_iff]
      norm_num
    calc Int.floor ((165 : ℚ) * ((age - 2) / (48 - 2)))
        ≤ Int.floor ((165 : ℚ)) := Int.floor_le_floor hle
      _ = 165 := h165
  exact Int.toNat_le.mpr (by exact_mod_cast hfl)

/-- Counterexample to C2: the inline base color assigned by part_002's
`visualize` (lines 162-179) is black, not red, for an event lying after
the reference time, and a cool blue, not pure yellow, for an event
older than 168 hours. -/
theorem claim2_counterexample :
    visColorRev2 (-1) = 0x000000 ∧ visColorRev2 200 = 0x0080ff ∧
    (0x000000 : ℕ) ≠ 0xff0000 ∧ (0x0080ff : ℕ) ≠ 0xffff00 := by
  refine ⟨?_, ?_, by norm_num, by norm_num⟩
  · simp only [visColorRev2]
    rw [if_pos (by norm_num : (-1 : ℚ) < 0)]
  · simp only [visColorRev2]
    rw [if_neg (by norm_num : ¬ (200 : ℚ) < 0),
        if_neg (by norm_num : ¬ (200 : ℚ) ≤ 2),
        if_neg (by norm_num : ¬ (200 : ℚ) ≤ 48),
        if_neg (by norm_num : ¬ (200 : ℚ) ≤ 168)]

/-- C2 as amended: the shared `ageColor` helper (used by the part_003
and part_004 `visualize`) satisfies the claimed three-band ramp — red
for negative ages, pure red up to 2 h, the red-to-orange interpolation
with green channel `floor(165 * (age-2)/46)` up to 48 h, pure yellow
beyond — while the inline color of part_002's `visualize` instead
yields black for negative ages and `0x0080ff` past 168 h. -/
theorem claim2_amended_age_color (age : ℚ) :
    (age < 0 → ageColor age = 0xff0000) ∧
    (0 ≤ age → age ≤ 2 → ageColor age = 0xff0000) ∧
    (2 < age → age ≤ 48 →
      ageColor age = 0xff0000 + 256 * (Int.floor (165 * ((age - 2) / 46))).toNat) ∧
    (48 < age → ageColor age = 0xffff00) ∧
    (age < 0 → visColorRev2 age = 0x000000) ∧
    (168 < age → visColorRev2 age = 0x0080ff) := by
  refine ⟨?_, ?_, ?_, ?_, ?_, ?_⟩
  · intro h
    simp only [ageColor]
    rw [if_pos h]
  · intro h0 h2
    simp only [ageColor]
    rw [if_neg (by intro hc; linarith), if_pos h2]
  · intro h2 h48
    simp only [ageColor]
    rw [if_neg (by intro hc; linarith), if_neg (by intro hc; linarith),
        if_pos h48,
        hexOr_red_green _ (ageColor_green_le age h48),
        show (48 : ℚ) - 2 = 46 by norm_num]
  · intro h48
    simp only [ageColor]
    rw [if_neg (by intro hc; linarith), if_neg (by intro hc; linarith),
        if_neg (by intro hc; linarith)]
  · intro h
    simp only [visColorRev2]
    rw [if_pos h]
  · intro h
    simp only [visColorRev2]
    rw [if_neg (by intro hc; linarith), if_neg (by intro hc; linarith),
        if_neg (by intro hc; linarith), if_neg (by intro hc; linarith)]

/-- Witness for the amended C2 at concrete ages in the outer bands. -/
theorem claim2_amended_age_color_witness :
    ageColor (-5) = 0xff0000 ∧ ageColor 100 = 0xffff00 ∧
    visColorRev2 (-5) = 0x000000 ∧ visColorRev2 200 = 0x0080ff := by
  refine ⟨?_, ?_, ?_, ?_⟩
  · exact (claim2_amended_age_color (-5)).1 (by norm_num)
  · exact (claim2_amended_age_color 100).2.2.2.1 (by norm_num)
  · exact (claim2_amended_age_color (-5)).2.2.2.2.1 (by norm_num)
  · exact (claim2_amended_age_color 200).2.2.2.2.2 (by norm_num)

/-- Claim C5: `geoToTerrain` returns exactly the re-centered, mirrored
lerp of (lon, lat) and the depth scaled by `-(depthKm*1000)/25`; as a
pure function it is deterministic. -/
theorem claim5_geo_to_terrain (lat lon depth : ℚ) (tb : TerrainBounds)
    (hlon : tb.minLon < tb.maxLon) (hlat : tb.minLat < tb.maxLat)
    (hdepth : 0 ≤ depth) :
    geoToTerrain lat lon depth tb =
      ⟨-((lon - tb.minLon) / (tb.maxLon - tb.minLon) * tb.width - tb.width / 2),
        (lat - tb.minLat) / (tb.maxLat - tb.minLat) * tb.height - tb.height / 2,
        -(depth * 1000) / 25⟩ ∧
    geoToTerrain lat lon depth tb = geoToTerrain lat lon depth tb := by
  refine ⟨?_, rfl⟩
  simp only [geoToTerrain, Vec3.mk.injEq]
  exact ⟨trivial, trivial, by ring⟩

/-- Witness for C5 on a concrete extent and event position. -/
theorem claim5_geo_to_terrain_witness :
    geoToTerrain 60 (-150) 10 tbW =
      ⟨-((-150 - tbW.minLon) / (tbW.maxLon - tbW.minLon) * tbW.width - tbW.width / 2),
        (60 - tbW.minLat) / (tbW.maxLat - tbW.minLat) * tbW.height - tbW.height / 2,
        -(10 * 1000) / 25⟩ := by
  exact (claim5_geo_to_terrain 60 (-150) 10 tbW (by norm_num [tbW])
    (by norm_num [tbW]) (by norm_num)).1

/-- Helper for C8: for non-negative ages (every event passing a time
filter) the two revisions compute the same bloom multiplier. -/
theorem bloomMultiplier_eq_rebuild (age : ℚ) (h0 : 0 ≤ age) :
    bloomMultiplier age = bloomMultiplierRebuild age := by
  simp only [bloomMultiplier, bloomMultiplierRebuild]
  by_cases h2 : age ≤ 2
  · rw [if_pos ⟨h2, h0⟩, if_pos h2]
  · push_neg at h2
    by_cases h12 : age ≤ 12
    · rw [if_neg (by rintro ⟨hle, -⟩; linarith), if_pos ⟨h2, h12⟩,
          if_neg (by intro hc; linarith), if_pos h12]
      ring
    · push_neg at h12
      by_cases h48 : age ≤ 48
      · rw [if_neg (by rintro ⟨hle, -⟩; linarith),
            if_neg (by rintro ⟨-, hle⟩; linarith), if_pos ⟨h12, h48⟩,
            if_neg (by intro hc; linarith), if_neg (by intro hc; linarith),
            if_pos h48]
        ring
      · rw [if_neg (by rintro ⟨hle, -⟩; linarith),
            if_neg (by rintro ⟨-, hle⟩; linarith),
            if_neg (by rintro ⟨-, hle⟩; linarith),
            if_neg (by intro hc; linarith), if_neg (by intro hc; linarith),
            if_neg h48]

/-- Counterexample to C8: a 100-hour-old event (timestamp 0, reference
time 360000000 ms) gets opacity 17/30 from the pooled revision but
opacity 1 from the rebuild-every-frame revision, so the two `visualize`
passes are not observationally equivalent. -/
theorem claim8_counterexample :
    (markerStatePooled tbW 360000000 featOld).opacity = 17/30 ∧
    (markerStateRebuild tbW 360000000 featOld).opacity = 1 ∧
    (17/30 : ℚ) ≠ 1 := by
  refine ⟨?_, ?_, by norm_num⟩
  · simp only [markerStatePooled, deriveFields, featOld]
    rw [show ((360000000 : ℚ) - 0) / (1000 * 60 * 60) = 100 by norm_num]
    simp only [visualOpacity]
    rw [if_pos (by norm_num : (48 : ℚ) < 100),
        show (1 : ℚ) - (100 - 48) / (24 * 5) = 17/30 by norm_num,
        max_eq_right (by norm_num : (0 : ℚ) ≤ 17/30),
        max_eq_right (by norm_num : (1/10 : ℚ) ≤ 17/30)]
  · simp only [markerStateRebuild]

/-- C8 as amended: on events passing the time filter (non-negative
age), the two revisions assign identical position and identical
sphere/line colors, but the pooled revision applies the age-derived
scale `3 * scale(age)` and opacity `opacity(age)` while the rebuild
revision always uses scale 3 and opacity 1. -/
theorem claim8_amended_revision_comparison (tb : TerrainBounds) (rt : ℚ)
    (f : Feature) (h0 : 0 ≤ ageInHoursAt rt f.time) :
    (markerStatePooled tb rt f).pos = (markerStateRebuild tb rt f).pos ∧
    (markerStatePooled tb rt f).color = (markerStateRebuild tb rt f).color ∧
    (markerStatePooled tb rt f).lineColor = (markerStateRebuild tb rt f).lineColor ∧
    (markerStatePooled tb rt f).scaleVal = 3 * visualScale (ageInHoursAt rt f.time) ∧
    (markerStateRebuild tb rt f).scaleVal = 3 ∧
    (markerStatePooled tb rt f).opacity = visualOpacity (ageInHoursAt rt f.time) ∧
    (markerStateRebuild tb rt f).opacity = 1 ∧
    (markerStatePooled tb rt f).lineOpacity = visualOpacity (ageInHoursAt rt f.time) ∧
    (markerStateRebuild tb rt f).lineOpacity = 1 := by
  simp only [ageInHoursAt] at h0
  refine ⟨rfl, ?_, rfl, rfl, rfl, rfl, rfl, rfl, rfl⟩
  simp only [markerStatePooled, markerStateRebuild, deriveFields]
  rw [bloomMultiplier_eq_rebuild _ h0]

/-- Witness for the amended C8 at a zero-age event. -/
theorem claim8_amended_revision_comparison_witness :
    (0 : ℚ) ≤ ageInHoursAt 100 featW.time ∧
    (markerStatePooled tbW 100 featW).pos = (markerStateRebuild tbW 100 featW).pos ∧
    (markerStatePooled tbW 100 featW).color = (markerStateRebuild tbW 100 featW).color ∧
    (markerStateRebuild tbW 100 featW).opacity = 1 := by
  have h0 : (0 : ℚ) ≤ ageInHoursAt 100 featW.time := by
    norm_num [ageInHoursAt, featW]
  have h := claim8_amended_revision_comparison tbW 100 featW h0
  exact ⟨h0, h.1, h.2.1, h.2.2.2.2.2.2.1⟩

/-!  Association-list lemmas for the visual pool.  -/

theorem lookupPool_eq_none_iff (pool : List (ℕ × Entry)) (id : ℕ) :
    lookupPool pool id = none ↔ id ∉ poolKeys pool := by
  induction pool with
  | nil => simp [lookupPool, poolKeys]
  | cons p ps ih =>
      by_cases h : p.1 = id
      · subst h
        simp [lookupPool, poolKeys]
      · simp [lookupPool, poolKeys, h, ih, Ne.symm h]

theorem lookupPool_isSome_iff (pool : List (ℕ × Entry)) (id : ℕ) :
    (lookupPool pool id).isSome = true ↔ id ∈ poolKeys pool := by
  induction pool with
  | nil => simp [lookupPool, poolKeys]
  | cons p ps ih =>
      by_cases h : p.1 = id
      · subst h
        simp [lookupPool, poolKeys]
      · simp [lookupPool, poolKeys, h, ih, Ne.symm h]

theorem lookupPool_mem (pool : List (ℕ × Entry)) (id : ℕ) (e : Entry)
    (h : lookupPool pool id = some e) : (id, e) ∈ pool := by
  induction pool with
  | nil => simp [lookupPool] at h
  | cons p ps ih =>
      by_cases hp : p.1 = id
      · rw [lookupPool, if_pos hp] at h
        have hpe : (id, e) = p := by
          cases p
          simp_all
        subst hpe
        exact List.mem_cons_self _ _
      · rw [lookupPool, if_neg hp] at h
        exact List.mem_cons_of_mem _ (ih h)

theorem lookupPool_append_some (pool qool : List (ℕ × Entry)) (id : ℕ)
    (e : Entry) (h : lookupPool pool id = some e) :
    lookupPool (pool ++ qool) id = some e := by
  induction pool with
  | nil => simp [lookupPool] at h
  | cons p ps ih =>
      by_cases hp : p.1 = id
      · rw [lookupPool, if_pos hp] at h
        rw [List.cons_append, lookupPool, if_pos hp, h]
      · rw [lookupPool, if_neg hp] at h
        rw [List.cons_append, lookupPool, if_neg hp]
        exact ih h

theorem lookupPool_append_none (pool qool : List (ℕ × Entry)) (id : ℕ)
    (h : lookupPool pool id = none) :
    lookupPool (pool ++ qool) id = lookupPool qool id := by
  induction pool with
  | nil => simp [lookupPool]
  | cons p ps ih =>
      by_cases hp : p.1 = id
      · rw [lookupPool, if_pos hp] at h
        cases h
      · rw [lookupPool, if_neg hp] at h
        rw [List.cons_append, lookupPool, if_neg hp]
        exact ih h

theorem lookupPool_updatePool_ne (pool : List (ℕ × Entry)) (fid id : ℕ)
    (flds : EntryFields) (h : id ≠ fid) :
    lookupPool (updatePool pool fid flds) id = lookupPool pool id := by
  induction pool with
  | nil => rfl
  | cons p ps ih =>
      by_cases hp : p.1 = fid
      · rw [updatePool, if_pos hp, lookupPool,
            if_neg (by rw [hp]; exact fun hc => h hc.symm), lookupPool,
            if_neg (by rw [hp]; exact fun hc => h hc.symm)]
        exact ih
      · rw [updatePool, if_neg hp]
        by_cases hq : p.1 = id
        · rw [lookupPool, if_pos hq, lookupPool, if_pos hq]
        · rw [lookupPool, if_neg hq, lookupPool, if_neg hq]
          exact ih

theorem lookupPool_updatePool_self (pool : List (ℕ × Entry)) (fid : ℕ)
    (flds : EntryFields) :
    lookupPool (updatePool pool fid flds) fid =
      (lookupPool pool fid).map (fun e => { e with fields := flds }) := by
  induction pool with
  | nil => rfl
  | cons p ps ih =>
      by_cases hp : p.1 = fid
      · rw [updatePool, if_pos hp, lookupPool, if_pos hp, lookupPool,
            if_pos hp, Option.map_some']
      · rw [updatePool, if_neg hp, lookupPool, if_neg hp, lookupPool,
            if_neg hp]
        exact ih

theorem poolKeys_updatePool (pool : List (ℕ × Entry)) (fid : ℕ)
    (flds : EntryFields) :
    poolKeys (updatePool pool fid flds) = poolKeys pool := by
  induction pool with
  | nil => rfl
  | cons p ps ih =>
      by_cases hp : p.1 = fid
      · rw [updatePool, if_pos hp]
        simp only [poolKeys, List.map_cons] at *
        rw [ih]
      · rw [updatePool, if_neg hp]
        simp only [poolKeys, List.map_cons] at *
        rw [ih]

theorem poolKeys_append (ps qs : List (ℕ × Entry)) :
    poolKeys (ps ++ qs) = poolKeys ps ++ poolKeys qs := by
  simp [poolKeys]

/-!  Lemmas on one step of the visualize loop.  -/

theorem visStep_of_mem (tb : TerrainBounds) (rt : ℚ)
    (acc : OverlayState × List ℕ) (f : Feature)
    (h : f.fid ∈ poolKeys acc.1.pool) :
    visStep tb rt acc f =
      ({ acc.1 with pool := updatePool acc.1.pool f.fid (deriveFields tb rt f) },
        acc.2 ++ [f.fid]) := by
  simp only [visStep]
  rw [if_pos ((lookupPool_isSome_iff _ _).mpr h)]

theorem visStep_of_not_mem (tb : TerrainBounds) (rt : ℚ)
    (acc : OverlayState × List ℕ) (f : Feature)
    (h : f.fid ∉ poolKeys acc.1.pool) :
    visStep tb rt acc f =
      ({ acc.1 with
           pool := acc.1.pool ++ [(f.fid, freshEntry acc.1 (deriveFields tb rt f))]
           group := acc.1.group ++ [acc.1.counter, acc.1.counter + 1]
           counter := acc.1.counter + 2 },
        acc.2 ++ [f.fid]) := by
  simp only [visStep]
  rw [if_neg (by rw [lookupPool_isSome_iff]; exact h)]

theorem visLoop_shape (tb : TerrainBounds) (rt : ℚ) (tf : Option ℚ)
    (fs : List Feature) :
    ∀ acc : OverlayState × List ℕ, ∃ p g c,
      (visLoop tb rt tf fs acc).1 = { acc.1 with pool := p, group := g, counter := c } := by
  induction fs with
  | nil =>
      intro acc
      exact ⟨acc.1.pool, acc.1.group, acc.1.counter, rfl⟩
  | cons f fs ih =>
      intro acc
      simp only [visLoop]
      by_cases hp : passesFilter tf f.time = true
      · rw [if_pos hp]
        by_cases hm : f.fid ∈ poolKeys acc.1.pool
        · obtain ⟨p, g, c, hh⟩ := ih (visStep tb rt acc f)
          exact ⟨p, g, c, by rw [hh, visStep_of_mem tb rt acc f hm]⟩
        · obtain ⟨p, g, c, hh⟩ := ih (visStep tb rt acc f)
          exact ⟨p, g, c, by rw [hh, visStep_of_not_mem tb rt acc f hm]⟩
      · rw [if_neg hp]
        exact ih acc

theorem applySelection_shape (s : OverlayState) :
    ∃ p, applySelection s = { s with pool := p } := by
  obtain ⟨d1, d2, d3, d4, d5, d6, d7, d8, d9, d10, d11, sel, pl, gr, dp, cn⟩ := s
  unfold applySelection
  cases sel with
  | none => exact ⟨_, rfl⟩
  | some fid =>
      dsimp only
      by_cases h : (lookupPool pl fid).isSome = true
      · rw [if_pos h]
        exact ⟨_, rfl⟩
      · rw [if_neg h]
        exact ⟨_, rfl⟩

theorem visualize_shape (tb : TerrainBounds) (tf : Option ℚ) (now : ℚ)
    (s : OverlayState) :
    ∃ p g d c, visualize tb tf now s =
      { s with pool := p, group := g, disposed := d, counter := c } := by
  by_cases he : s.earthquakeData = []
  · refine ⟨s.pool, s.group, s.disposed, s.counter, ?_⟩
    rw [visualize, if_pos he]
  · rw [visualize, if_neg he]
    obtain ⟨p, g, c, hh⟩ :=
      visLoop_shape tb (refTime tf now) tf s.earthquakeData (s, [])
    obtain ⟨p₂, hsel⟩ :=
      applySelection_shape
        (cleanupPool (visLoop tb (refTime tf now) tf s.earthquakeData (s, [])).2
          (visLoop tb (refTime tf now) tf s.earthquakeData (s, [])).1)
    rw [hsel]
    simp only [cleanupPool, hh]
    exact ⟨p₂, _, _, c, rfl⟩

/-!  Identity (`sameVisual`) helper lemmas.  -/

theorem sameVisual_refl (e : Entry) : sameVisual e e :=
  ⟨rfl, rfl, rfl, rfl, rfl⟩

theorem sameVisual_trans {a b c : Entry} (h₁ : sameVisual a b)
    (h₂ : sameVisual b c) : sameVisual a c := by
  obtain ⟨x1, x2, x3, x4, x5⟩ := h₁
  obtain ⟨y1, y2, y3, y4, y5⟩ := h₂
  exact ⟨x1.trans y1, x2.trans y2, x3.trans y3, x4.trans y4, x5.trans y5⟩

theorem sameVisual_update (e : Entry) (flds : EntryFields) :
    sameVisual { e with fields := flds } e :=
  ⟨rfl, rfl, rfl, rfl, rfl⟩

theorem sameVisual_highlightEntry (e : Entry) : sameVisual (highlightEntry e) e :=
  ⟨rfl, rfl, rfl, rfl, rfl⟩

theorem sameVisual_restoreEntry (e : Entry) : sameVisual (restoreEntry e) e :=
  ⟨rfl, rfl, rfl, rfl, rfl⟩

theorem optionSameVisual_refl (o : Option Entry) : optionSameVisual o o := by
  cases o with
  | none => trivial
  | some e => exact sameVisual_refl e

/-!  Per-step lemmas of the visualize loop.  -/

theorem visStep_act (tb : TerrainBounds) (rt : ℚ) (acc : OverlayState × List ℕ)
    (f : Feature) : (visStep tb rt acc f).2 = acc.2 ++ [f.fid] := by
  by_cases hm : f.fid ∈ poolKeys acc.1.pool
  · rw [visStep_of_mem tb rt acc f hm]
  · rw [visStep_of_not_mem tb rt acc f hm]

theorem mem_activeList (tf : Option ℚ) (fs : List Feature) (f : Feature)
    (hf : f ∈ fs) (hp : passesFilter tf f.time = true) :
    f.fid ∈ activeList tf fs := by
  induction fs with
  | nil => cases hf
  | cons g gs ih =>
      rcases List.mem_cons.mp hf with h | h
      · subst h
        rw [activeList, if_pos hp]
        exact List.mem_cons_self _ _
      · rw [activeList]
        by_cases hg : passesFilter tf g.time = true
        · rw [if_pos hg]
          exact List.mem_cons_of_mem _ (ih h)
        · rw [if_neg hg]
          exact ih h

theorem activeList_mem_fid (tf : Option ℚ) (fs : List Feature) (id : ℕ)
    (h : id ∈ activeList tf fs) :
    ∃ f, f ∈ fs ∧ f.fid = id ∧ passesFilter tf f.time = true := by
  induction fs with
  | nil => cases h
  | cons g gs ih =>
      rw [activeList] at h
      by_cases hg : passesFilter tf g.time = true
      · rw [if_pos hg] at h
        rcases List.mem_cons.mp h with h | h
        · exact ⟨g, List.mem_cons_self _ _, h.symm, hg⟩
        · obtain ⟨f, hf, hfid, hfp⟩ := ih h
          exact ⟨f, List.mem_cons_of_mem _ hf, hfid, hfp⟩
      · rw [if_neg hg] at h
        obtain ⟨f, hf, hfid, hfp⟩ := ih h
        exact ⟨f, List.mem_cons_of_mem _ hf, hfid, hfp⟩

theorem visStep_lookup_pres (tb : TerrainBounds) (rt : ℚ)
    (acc : OverlayState × List ℕ) (f : Feature) (id : ℕ) (e : Entry)
    (h : lookupPool acc.1.pool id = some e) :
    ∃ q, lookupPool (visStep tb rt acc f).1.pool id = some q ∧ sameVisual q e := by
  by_cases hm : f.fid ∈ poolKeys acc.1.pool
  · rw [visStep_of_mem tb rt acc f hm]
    dsimp only
    by_cases hid : id = f.fid
    · subst hid
      rw [lookupPool_updatePool_self, h, Option.map_some']
      exact ⟨_, rfl, sameVisual_update _ _⟩
    · rw [lookupPool_updatePool_ne _ _ _ _ hid, h]
      exact ⟨e, rfl, sameVisual_refl e⟩
  · rw [visStep_of_not_mem tb rt acc f hm]
    dsimp only
    rw [lookupPool_append_some _ _ _ _ h]
    exact ⟨e, rfl, sameVisual_refl e⟩

theorem visStep_lookup_untouched (tb : TerrainBounds) (rt : ℚ)
    (acc : OverlayState × List ℕ) (f : Feature) (id : ℕ) (hne : id ≠ f.fid) :
    lookupPool (visStep tb rt acc f).1.pool id = lookupPool acc.1.pool id := by
  by_cases hm : f.fid ∈ poolKeys acc.1.pool
  · rw [visStep_of_mem tb rt acc f hm]
    dsimp only
    exact lookupPool_updatePool_ne _ _ _ _ hne
  · rw [visStep_of_not_mem tb rt acc f hm]
    dsimp only
    cases hl : lookupPool acc.1.pool id with
    | some e => exact lookupPool_append_some _ _ _ _ hl
    | none =>
        rw [lookupPool_append_none _ _ _ hl, lookupPool,
            if_neg (fun hc => hne hc.symm)]
        rfl

theorem visStep_counter_le (tb : TerrainBounds) (rt : ℚ)
    (acc : OverlayState × List ℕ) (f : Feature) :
    acc.1.counter ≤ (visStep tb rt acc f).1.counter := by
  by_cases hm : f.fid ∈ poolKeys acc.1.pool
  · rw [visStep_of_mem tb rt acc f hm]
  · rw [visStep_of_not_mem tb rt acc f hm]
    dsimp only
    omega

theorem visStep_group_sub (tb : TerrainBounds) (rt : ℚ)
    (acc : OverlayState × List ℕ) (f : Feature) (t : ℕ)
    (h : t ∈ (visStep tb rt acc f).1.group) :
    t ∈ acc.1.group ∨ acc.1.counter ≤ t := by
  by_cases hm : f.fid ∈ poolKeys acc.1.pool
  · rw [visStep_of_mem tb rt acc f hm] at h
    exact Or.inl h
  · rw [visStep_of_not_mem tb rt acc f hm] at h
    dsimp only at h
    rcases List.mem_append.mp h with h | h
    · exact Or.inl h
    · rcases List.mem_cons.mp h with h | h
      · omega
      · rcases List.mem_cons.mp h with h | h
        · omega
        · cases h

theorem visStep_keys_nodup (tb : TerrainBounds) (rt : ℚ)
    (acc : OverlayState × List ℕ) (f : Feature)
    (h : (poolKeys acc.1.pool).Nodup) :
    (poolKeys (visStep tb rt acc f).1.pool).Nodup := by
  by_cases hm : f.fid ∈ poolKeys acc.1.pool
  · rw [visStep_of_mem tb rt acc f hm]
    dsimp only
    rw [poolKeys_updatePool]
    exact h
  · rw [visStep_of_not_mem tb rt acc f hm]
    dsimp only
    rw [poolKeys_append]
    refine List.Nodup.append h (List.nodup_singleton _) ?_
    intro a ha hb
    have : a = f.fid := by
      simpa [poolKeys] using hb
    subst this
    exact hm ha

/-!  Whole-loop lemmas (induction over the event list).  -/

theorem visLoop_act (tb : TerrainBounds) (rt : ℚ) (tf : Option ℚ)
    (fs : List Feature) :
    ∀ acc : OverlayState × List ℕ,
      (visLoop tb rt tf fs acc).2 = acc.2 ++ activeList tf fs := by
  induction fs with
  | nil =>
      intro acc
      simp [visLoop, activeList]
  | cons f fs ih =>
      intro acc
      simp only [visLoop, activeList]
      by_cases hp : passesFilter tf f.time = true
      · rw [if_pos hp, if_pos hp, ih, visStep_act, List.append_assoc]
        rfl
      · rw [if_neg hp, if_neg hp, ih]

theorem visLoop_keys_mem (tb : TerrainBounds) (rt : ℚ) (tf : Option ℚ)
    (fs : List Feature) :
    ∀ (acc : OverlayState × List ℕ) (id : ℕ),
      id ∈ poolKeys (visLoop tb rt tf fs acc).1.pool ↔
        id ∈ poolKeys acc.1.pool ∨ id ∈ activeList tf fs := by
  induction fs with
  | nil =>
      intro acc id
      simp [visLoop, activeList]
  | cons f fs ih =>
      intro acc id
      simp only [visLoop, activeList]
      by_cases hp : passesFilter tf f.time = true
      · rw [if_pos hp, if_pos hp, ih]
        by_cases hm : f.fid ∈ poolKeys acc.1.pool
        · rw [visStep_of_mem tb rt acc f hm]
          dsimp only
          rw [poolKeys_updatePool]
          constructor
          · rintro (h | h)
            · exact Or.inl h
            · exact Or.inr (List.mem_cons_of_mem _ h)
          · rintro (h | h)
            · exact Or.inl h
            · rcases List.mem_cons.mp h with h | h
              · subst h
                exact Or.inl hm
              · exact Or.inr h
        · rw [visStep_of_not_mem tb rt acc f hm]
          dsimp only
          rw [poolKeys_append]
          constructor
          · rintro (h | h)
            · rcases List.mem_append.mp h with h | h
              · exact Or.inl h
              · have : id = f.fid := by simpa [poolKeys] using h
                subst this
                exact Or.inr (List.mem_cons_self _ _)
            · exact Or.inr (List.mem_cons_of_mem _ h)
          · rintro (h | h)
            · exact Or.inl (List.mem_append_left _ h)
            · rcases List.mem_cons.mp h with h | h
              · subst h
                refine Or.inl (List.mem_append_right _ ?_)
                simp [poolKeys]
              · exact Or.inr h
      · rw [if_neg hp, if_neg hp]
        exact ih acc id

theorem visLoop_lookup_pres (tb : TerrainBounds) (rt : ℚ) (tf : Option ℚ)
    (fs : List Feature) :
    ∀ (acc : OverlayState × List ℕ) (id : ℕ) (e : Entry),
      lookupPool acc.1.pool id = some e →
      ∃ q, lookupPool (visLoop tb rt tf fs acc).1.pool id = some q ∧
        sameVisual q e := by
  induction fs with
  | nil =>
      intro acc id e h
      exact ⟨e, h, sameVisual_refl e⟩
  | cons f fs ih =>
      intro acc id e h
      simp only [visLoop]
      by_cases hp : passesFilter tf f.time = true
      · rw [if_pos hp]
        obtain ⟨q, hq, hsv⟩ := visStep_lookup_pres tb rt acc f id e h
        obtain ⟨q₂, hq₂, hsv₂⟩ := ih _ id q hq
        exact ⟨q₂, hq₂, sameVisual_trans hsv₂ hsv⟩
      · rw [if_neg hp]
        exact ih acc id e h

theorem visLoop_lookup_untouched (tb : TerrainBounds) (rt : ℚ) (tf : Option ℚ)
    (fs : List Feature) :
    ∀ (acc : OverlayState × List ℕ) (id : ℕ), id ∉ activeList tf fs →
      lookupPool (visLoop tb rt tf fs acc).1.pool id =
        lookupPool acc.1.pool id := by
  induction fs with
  | nil =>
      intro acc id _
      rfl
  | cons f fs ih =>
      intro acc id hna
      rw [activeList] at hna
      simp only [visLoop]
      by_cases hp : passesFilter tf f.time = true
      · rw [if_pos hp] at hna ⊢
        have hne : id ≠ f.fid := fun hc => hna (hc ▸ List.mem_cons_self _ _)
        have hna₂ : id ∉ activeList tf fs := fun hc => hna (List.mem_cons_of_mem _ hc)
        rw [ih _ id hna₂, visStep_lookup_untouched tb rt acc f id hne]
      · rw [if_neg hp] at hna ⊢
        exact ih acc id hna

theorem visLoop_counter_le (tb : TerrainBounds) (rt : ℚ) (tf : Option ℚ)
    (fs : List Feature) :
    ∀ acc : OverlayState × List ℕ,
      acc.1.counter ≤ (visLoop tb rt tf fs acc).1.counter := by
  induction fs with
  | nil =>
      intro acc
      exact le_refl _
  | cons f fs ih =>
      intro acc
      simp only [visLoop]
      by_cases hp : passesFilter tf f.time = true
      · rw [if_pos hp]
        exact le_trans (visStep_counter_le tb rt acc f) (ih _)
      · rw [if_neg hp]
        exact ih acc

theorem visLoop_group_sub (tb : TerrainBounds) (rt : ℚ) (tf : Option ℚ)
    (fs : List Feature) :
    ∀ (acc : OverlayState × List ℕ) (t : ℕ),
      t ∈ (visLoop tb rt tf fs acc).1.group →
      t ∈ acc.1.group ∨ acc.1.counter ≤ t := by
  induction fs with
  | nil =>
      intro acc t h
      exact Or.inl h
  | cons f fs ih =>
      intro acc t h
      simp only [visLoop] at h
      by_cases hp : passesFilter tf f.time = true
      · rw [if_pos hp] at h
        rcases ih _ t h with h₂ | h₂
        · rcases visStep_group_sub tb rt acc f t h₂ with h₃ | h₃
          · exact Or.inl h₃
          · exact Or.inr h₃
        · exact Or.inr (le_trans (visStep_counter_le tb rt acc f) h₂)
      · rw [if_neg hp] at h
        exact ih acc t h

theorem visLoop_no_create (tb : TerrainBounds) (rt : ℚ) (tf : Option ℚ)
    (fs : List Feature) :
    ∀ acc : OverlayState × List ℕ,
      (∀ f ∈ fs, passesFilter tf f.time = true → f.fid ∈ poolKeys acc.1.pool) →
      poolKeys (visLoop tb rt tf fs acc).1.pool = poolKeys acc.1.pool ∧
      (visLoop tb rt tf fs acc).1.counter = acc.1.counter ∧
      (visLoop tb rt tf fs acc).1.group = acc.1.group ∧
      (visLoop tb rt tf fs acc).1.disposed = acc.1.disposed := by
  induction fs with
  | nil =>
      intro acc _
      exact ⟨rfl, rfl, rfl, rfl⟩
  | cons f fs ih =>
      intro acc h
      simp only [visLoop]
      by_cases hp : passesFilter tf f.time = true
      · rw [if_pos hp]
        have hm : f.fid ∈ poolKeys acc.1.pool :=
          h f (List.mem_cons_self _ _) hp
        have hstep := visStep_of_mem tb rt acc f hm
        have hkeys : poolKeys (visStep tb rt acc f).1.pool = poolKeys acc.1.pool := by
          rw [hstep]
          dsimp only
          exact poolKeys_updatePool _ _ _
        have h₂ : ∀ g ∈ fs, passesFilter tf g.time = true →
            g.fid ∈ poolKeys (visStep tb rt acc f).1.pool := by
          intro g hg hpg
          rw [hkeys]
          exact h g (List.mem_cons_of_mem _ hg) hpg
        obtain ⟨k1, k2, k3, k4⟩ := ih (visStep tb rt acc f) h₂
        refine ⟨?_, ?_, ?_, ?_⟩
        · rw [k1, hkeys]
        · rw [k2, hstep]
        · rw [k3, hstep]
        · rw [k4, hstep]
      · rw [if_neg hp]
        exact ih acc (fun g hg => h g (List.mem_cons_of_mem _ hg))

theorem visLoop_keys_nodup (tb : TerrainBounds) (rt : ℚ) (tf : Option ℚ)
    (fs : List Feature) :
    ∀ acc : OverlayState × List ℕ, (poolKeys acc.1.pool).Nodup →
      (poolKeys (visLoop tb rt tf fs acc).1.pool).Nodup := by
  induction fs with
  | nil =>
      intro acc h
      exact h
  | cons f fs ih =>
      intro acc h
      simp only [visLoop]
      by_cases hp : passesFilter tf f.time = true
      · rw [if_pos hp]
        exact ih _ (visStep_keys_nodup tb rt acc f h)
      · rw [if_neg hp]
        exact ih acc h

/-!  Lemmas on the cleanup pass.  -/

theorem lookupPool_filter_mem (act : List ℕ) (pool : List (ℕ × Entry))
    (id : ℕ) (h : id ∈ act) :
    lookupPool (pool.filter (fun p => decide (p.1 ∈ act))) id =
      lookupPool pool id := by
  induction pool with
  | nil => rfl
  | cons p ps ih =>
      by_cases hp : p.1 = id
      · rw [List.filter_cons_of_pos (by simp [hp, h]), lookupPool, if_pos hp,
            lookupPool, if_pos hp]
      · by_cases hk : p.1 ∈ act
        · rw [List.filter_cons_of_pos (by simp [hk]), lookupPool, if_neg hp,
              lookupPool, if_neg hp]
          exact ih
        · rw [List.filter_cons_of_neg (by simp [hk]), lookupPool, if_neg hp]
          exact ih

theorem lookupPool_filter_not_mem (act : List ℕ) (pool : List (ℕ × Entry))
    (id : ℕ) (h : id ∉ act) :
    lookupPool (pool.filter (fun p => decide (p.1 ∈ act))) id = none := by
  induction pool with
  | nil => rfl
  | cons p ps ih =>
      by_cases hk : p.1 ∈ act
      · rw [List.filter_cons_of_pos (by simp [hk]), lookupPool,
            if_neg (show ¬ p.1 = id from fun hc => h (hc ▸ hk))]
        exact ih
      · rw [List.filter_cons_of_neg (by simp [hk])]
        exact ih

theorem poolKeys_filter_mem_iff (act : List ℕ) (pool : List (ℕ × Entry))
    (id : ℕ) :
    id ∈ poolKeys (pool.filter (fun p => decide (p.1 ∈ act))) ↔
      id ∈ poolKeys pool ∧ id ∈ act := by
  simp only [poolKeys, List.mem_map, List.mem_filter, decide_eq_true_eq]
  constructor
  · rintro ⟨p, ⟨hp, hact⟩, rfl⟩
    exact ⟨⟨p, hp, rfl⟩, hact⟩
  · rintro ⟨⟨p, hp, rfl⟩, hact⟩
    exact ⟨p, ⟨hp, hact⟩, rfl⟩

theorem cleanupPool_lookup_mem (act : List ℕ) (s : OverlayState) (id : ℕ)
    (h : id ∈ act) :
    lookupPool (cleanupPool act s).pool id = lookupPool s.pool id := by
  simp only [cleanupPool]
  exact lookupPool_filter_mem act s.pool id h

theorem cleanupPool_lookup_not_mem (act : List ℕ) (s : OverlayState) (id : ℕ)
    (h : id ∉ act) :
    lookupPool (cleanupPool act s).pool id = none := by
  simp only [cleanupPool]
  exact lookupPool_filter_not_mem act s.pool id h

theorem cleanupPool_keys_mem (act : List ℕ) (s : OverlayState) (id : ℕ) :
    id ∈ poolKeys (cleanupPool act s).pool ↔
      id ∈ poolKeys s.pool ∧ id ∈ act := by
  simp only [cleanupPool]
  exact poolKeys_filter_mem_iff act s.pool id

theorem cleanupPool_keys_nodup (act : List ℕ) (s : OverlayState)
    (h : (poolKeys s.pool).Nodup) :
    (poolKeys (cleanupPool act s).pool).Nodup := by
  simp only [cleanupPool]
  exact ((List.filter_sublist _).map Prod.fst).nodup h

theorem cleanupPool_evicted (act : List ℕ) (s : OverlayState) (id : ℕ)
    (e : Entry) (h : lookupPool s.pool id = some e) (hna : id ∉ act) :
    lookupPool (cleanupPool act s).pool id = none ∧
    e.sphereTok ∈ (cleanupPool act s).disposed ∧
    e.lineTok ∈ (cleanupPool act s).disposed ∧
    e.sphereTok ∉ (cleanupPool act s).group ∧
    e.lineTok ∉ (cleanupPool act s).group := by
  have hmem : (id, e) ∈ s.pool := lookupPool_mem _ _ _ h
  have hev : (id, e) ∈ s.pool.filter (fun p => decide (p.1 ∉ act)) :=
    List.mem_filter.mpr ⟨hmem, by simp [hna]⟩
  have hsph : e.sphereTok ∈
      (s.pool.filter (fun p => decide (p.1 ∉ act))).flatMap
        (fun p => entryToks p.2) :=
    List.mem_flatMap.mpr ⟨(id, e), hev, by simp [entryToks]⟩
  have hlin : e.lineTok ∈
      (s.pool.filter (fun p => decide (p.1 ∉ act))).flatMap
        (fun p => entryToks p.2) :=
    List.mem_flatMap.mpr ⟨(id, e), hev, by simp [entryToks]⟩
  refine ⟨cleanupPool_lookup_not_mem act s id hna, ?_, ?_, ?_, ?_⟩
  · exact List.mem_append_right _ hsph
  · exact List.mem_append_right _ hlin
  · intro hc
    have := (List.mem_filter.mp hc).2
    simp only [decide_eq_true_eq] at this
    exact this hsph
  · intro hc
    have := (List.mem_filter.mp hc).2
    simp only [decide_eq_true_eq] at this
    exact this hlin

theorem cleanupPool_group_sub (act : List ℕ) (s : OverlayState) (t : ℕ)
    (h : t ∈ (cleanupPool act s).group) : t ∈ s.group :=
  (List.mem_filter.mp h).1

theorem cleanupPool_of_all_mem (act : List ℕ) (s : OverlayState)
    (h : ∀ id ∈ poolKeys s.pool, id ∈ act) :
    cleanupPool act s = s := by
  have hfil : s.pool.filter (fun p => decide (p.1 ∈ act)) = s.pool := by
    rw [List.filter_eq_self]
    intro p hp
    simp only [decide_eq_true_eq]
    exact h p.1 (List.mem_map.mpr ⟨p, hp, rfl⟩)
  have hev : s.pool.filter (fun p => decide (p.1 ∉ act)) = [] := by
    rw [List.filter_eq_nil_iff]
    intro p hp
    simp only [decide_eq_true_eq, Decidable.not_not]
    exact h p.1 (List.mem_map.mpr ⟨p, hp, rfl⟩)
  simp only [cleanupPool, hfil, hev, List.flatMap_nil, List.append_nil]
  have hgr : (s.group.filter (fun t => decide (t ∉ ([] : List ℕ)))) = s.group := by
    rw [List.filter_eq_self]
    intro t _
    simp
  rw [hgr]

/-!  Lemmas on the selection re-highlight pass.  -/

theorem poolKeys_highlightMap (fid : ℕ) (pool : List (ℕ × Entry)) :
    poolKeys (pool.map (fun p =>
      if p.1 = fid then (p.1, highlightEntry p.2) else (p.1, restoreEntry p.2))) =
      poolKeys pool := by
  induction pool with
  | nil => rfl
  | cons p ps ih =>
      simp only [List.map_cons]
      by_cases hp : p.1 = fid
      · rw [if_pos hp]
        simp only [poolKeys, List.map_cons] at *
        rw [ih]
      · rw [if_neg hp]
        simp only [poolKeys, List.map_cons] at *
        rw [ih]

theorem lookupPool_highlightMap (fid id : ℕ) (pool : List (ℕ × Entry)) :
    optionSameVisual
      (lookupPool (pool.map (fun p =>
        if p.1 = fid then (p.1, highlightEntry p.2) else (p.1, restoreEntry p.2))) id)
      (lookupPool pool id) := by
  induction pool with
  | nil => trivial
  | cons p ps ih =>
      simp only [List.map_cons]
      by_cases hp : p.1 = fid
      · rw [if_pos hp]
        by_cases hq : p.1 = id
        · rw [lookupPool, if_pos hq, lookupPool, if_pos hq]
          exact sameVisual_highlightEntry p.2
        · rw [lookupPool, if_neg hq, lookupPool, if_neg hq]
          exact ih
      · rw [if_neg hp]
        by_cases hq : p.1 = id
        · rw [lookupPool, if_pos hq, lookupPool, if_pos hq]
          exact sameVisual_restoreEntry p.2
        · rw [lookupPool, if_neg hq, lookupPool, if_neg hq]
          exact ih

theorem applySelection_keys (s : OverlayState) :
    poolKeys (applySelection s).pool = poolKeys s.pool := by
  unfold applySelection
  cases hsel : s.selectedFeatureId with
  | none => rfl
  | some fid =>
      dsimp only
      by_cases h : (lookupPool s.pool fid).isSome = true
      · rw [if_pos h]
        exact poolKeys_highlightMap fid s.pool
      · rw [if_neg h]

theorem applySelection_lookup (s : OverlayState) (id : ℕ) :
    optionSameVisual (lookupPool (applySelection s).pool id)
      (lookupPool s.pool id) := by
  unfold applySelection
  cases hsel : s.selectedFeatureId with
  | none => exact optionSameVisual_refl _
  | some fid =>
      dsimp only
      by_cases h : (lookupPool s.pool fid).isSome = true
      · rw [if_pos h]
        exact lookupPool_highlightMap fid id s.pool
      · rw [if_neg h]
        exact optionSameVisual_refl _

theorem optionSameVisual_trans {a b c : Option Entry}
    (h₁ : optionSameVisual a b) (h₂ : optionSameVisual b c) :
    optionSameVisual a c := by
  cases a with
  | none =>
      cases b with
      | none => cases c with
          | none => trivial
          | some e => cases h₂
      | some e => cases h₁
  | some ea =>
      cases b with
      | none => cases h₁
      | some eb =>
          cases c with
          | none => cases h₂
          | some ec => exact sameVisual_trans h₁ h₂

/-- Claim C3: with an unchanged event set and an unchanged cutoff, a
second `visualize` pass creates no Visual Entry and destroys none — the
pool maps the same identifiers to entries with the same sphere and line
objects (and the same rest snapshots), the allocation counter is
unchanged, and the scene-graph group and disposed set are untouched;
only the derived appearance fields are rewritten. -/
theorem claim3_reconcile_stability (tb : TerrainBounds) (tf : Option ℚ)
    (now₁ now₂ : ℚ) (s : OverlayState) :
    poolKeys (visualize tb tf now₂ (visualize tb tf now₁ s)).pool =
      poolKeys (visualize tb tf now₁ s).pool ∧
    (∀ id, optionSameVisual
      (lookupPool (visualize tb tf now₂ (visualize tb tf now₁ s)).pool id)
      (lookupPool (visualize tb tf now₁ s).pool id)) ∧
    (visualize tb tf now₂ (visualize tb tf now₁ s)).counter =
      (visualize tb tf now₁ s).counter ∧
    (visualize tb tf now₂ (visualize tb tf now₁ s)).group =
      (visualize tb tf now₁ s).group ∧
    (visualize tb tf now₂ (visualize tb tf now₁ s)).disposed =
      (visualize tb tf now₁ s).disposed := by
  by_cases he : s.earthquakeData = []
  · have h1 : visualize tb tf now₁ s = s := by
      rw [visualize, if_pos he]
    have h2 : visualize tb tf now₂ (visualize tb tf now₁ s) =
        visualize tb tf now₁ s := by
      rw [h1, visualize, if_pos he]
    rw [h2]
    exact ⟨rfl, fun id => optionSameVisual_refl _, rfl, rfl, rfl⟩
  · have hs₁eq : visualize tb tf now₁ s =
        applySelection (cleanupPool
          (visLoop tb (refTime tf now₁) tf s.earthquakeData (s, [])).2
          (visLoop tb (refTime tf now₁) tf s.earthquakeData (s, [])).1) := by
      rw [visualize, if_neg he]
    set s₁ := visualize tb tf now₁ s with hs₁def
    have hed : s₁.earthquakeData = s.earthquakeData := by
      obtain ⟨p, g, d, c, h⟩ := visualize_shape tb tf now₁ s
      rw [hs₁def, h]
    have hR1act : (visLoop tb (refTime tf now₁) tf s.earthquakeData (s, [])).2 =
        activeList tf s.earthquakeData := by
      rw [visLoop_act]
      rfl
    have hkeys₁ : ∀ id, id ∈ poolKeys s₁.pool ↔
        id ∈ activeList tf s.earthquakeData := by
      intro id
      rw [hs₁eq, applySelection_keys, hR1act, cleanupPool_keys_mem,
          visLoop_keys_mem]
      dsimp only
      constructor
      · rintro ⟨-, h2⟩
        exact h2
      · intro h
        exact ⟨Or.inr h, h⟩
    have he₁ : ¬ s₁.earthquakeData = [] := by
      rw [hed]
      exact he
    have hs₂eq : visualize tb tf now₂ s₁ =
        applySelection (cleanupPool
          (visLoop tb (refTime tf now₂) tf s₁.earthquakeData (s₁, [])).2
          (visLoop tb (refTime tf now₂) tf s₁.earthquakeData (s₁, [])).1) := by
      rw [visualize, if_neg he₁]
    have hR2act : (visLoop tb (refTime tf now₂) tf s₁.earthquakeData (s₁, [])).2 =
        activeList tf s.earthquakeData := by
      rw [visLoop_act, hed]
      rfl
    have hpre : ∀ f ∈ s₁.earthquakeData, passesFilter tf f.time = true →
        f.fid ∈ poolKeys (s₁, ([] : List ℕ)).1.pool := by
      intro f hf hp
      dsimp only
      exact (hkeys₁ f.fid).mpr
        (mem_activeList tf s.earthquakeData f (hed ▸ hf) hp)
    obtain ⟨k1, k2, k3, k4⟩ :=
      visLoop_no_create tb (refTime tf now₂) tf s₁.earthquakeData (s₁, []) hpre
    have hclean : cleanupPool
        (visLoop tb (refTime tf now₂) tf s₁.earthquakeData (s₁, [])).2
        (visLoop tb (refTime tf now₂) tf s₁.earthquakeData (s₁, [])).1 =
        (visLoop tb (refTime tf now₂) tf s₁.earthquakeData (s₁, [])).1 := by
      apply cleanupPool_of_all_mem
      intro id hid
      rw [k1] at hid
      rw [hR2act]
      exact (hkeys₁ id).mp hid
    have hs₂ : visualize tb tf now₂ s₁ =
        applySelection
          (visLoop tb (refTime tf now₂) tf s₁.earthquakeData (s₁, [])).1 := by
      rw [hs₂eq, hclean]
    obtain ⟨p₂, hselshape⟩ := applySelection_shape
      (visLoop tb (refTime tf now₂) tf s₁.earthquakeData (s₁, [])).1
    refine ⟨?_, ?_, ?_, ?_, ?_⟩
    · rw [hs₂, applySelection_keys, k1]
    · intro id
      rw [hs₂]
      cases hl : lookupPool s₁.pool id with
      | some e =>
          obtain ⟨q, hq, hsv⟩ := visLoop_lookup_pres tb (refTime tf now₂) tf
            s₁.earthquakeData (s₁, []) id e hl
          refine optionSameVisual_trans (applySelection_lookup _ id) ?_
          rw [hq]
          exact hsv
      | none =>
          have hid : id ∉ poolKeys s₁.pool := (lookupPool_eq_none_iff _ _).mp hl
          have h2 : lookupPool
              (visLoop tb (refTime tf now₂) tf s₁.earthquakeData (s₁, [])).1.pool
              id = none := by
            rw [lookupPool_eq_none_iff, k1]
            exact hid
          refine optionSameVisual_trans (applySelection_lookup _ id) ?_
          rw [h2]
          trivial
    · rw [hs₂, hselshape]
      exact k2
    · rw [hs₂, hselshape]
      exact k3
    · rw [hs₂, hselshape]
      exact k4

/-- With a truthy (nonzero) cutoff, an event passes the time filter
exactly when its timestamp is at most the cutoff. -/
theorem passesFilter_some_iff (T t : ℚ) (hT : T ≠ 0) :
    passesFilter (some T) t = true ↔ t ≤ T := by
  show (if T = 0 then true else decide (t ≤ T)) = true ↔ t ≤ T
  rw [if_neg hT]
  exact decide_eq_true_iff

/-- Counterexample to C4: when the loaded event set is empty,
`visualize` returns before the cleanup loop, so a pool holding a stale
entry keeps it even though no loaded event has timestamp within the
cutoff — the claim's "exactly one entry per loaded event with
timestamp ≤ T and no others" fails at this input. -/
theorem claim4_counterexample :
    staleState.earthquakeData = [] ∧
    (visualize tbW (some 100) 0 staleState).pool = staleState.pool ∧
    staleState.pool ≠ [] := by
  refine ⟨rfl, ?_, List.cons_ne_nil _ _⟩
  rw [visualize, if_pos (show staleState.earthquakeData = [] from rfl)]

/-- C4 as amended: provided the loaded event set is nonempty (an empty
set makes `visualize` return early, leaving the pool untouched) and the
cutoff is nonzero (a zero cutoff is falsy and treated as no filter),
one `visualize` pass leaves exactly one pooled entry per loaded event
with timestamp ≤ T and no others, and every stale entry is dropped from
the pool with its sphere and line disposed and removed from the
group. -/
theorem claim4_amended_cutoff_eviction (tb : TerrainBounds) (now T : ℚ)
    (s : OverlayState) (hne : s.earthquakeData ≠ []) (hT : T ≠ 0)
    (hnd : (poolKeys s.pool).Nodup) :
    (poolKeys (visualize tb (some T) now s).pool).Nodup ∧
    (∀ id, (∃ e, lookupPool (visualize tb (some T) now s).pool id = some e) ↔
      ∃ f, f ∈ s.earthquakeData ∧ f.fid = id ∧ f.time ≤ T) ∧
    (∀ id e, lookupPool s.pool id = some e →
      (∀ f, f ∈ s.earthquakeData → f.fid = id → ¬ f.time ≤ T) →
      lookupPool (visualize tb (some T) now s).pool id = none ∧
      e.sphereTok ∈ (visualize tb (some T) now s).disposed ∧
      e.lineTok ∈ (visualize tb (some T) now s).disposed ∧
      e.sphereTok ∉ (visualize tb (some T) now s).group ∧
      e.lineTok ∉ (visualize tb (some T) now s).group) := by
  have hveq : visualize tb (some T) now s =
      applySelection (cleanupPool
        (visLoop tb (refTime (some T) now) (some T) s.earthquakeData (s, [])).2
        (visLoop tb (refTime (some T) now) (some T) s.earthquakeData (s, [])).1) := by
    rw [visualize, if_neg hne]
  have hact : (visLoop tb (refTime (some T) now) (some T) s.earthquakeData (s, [])).2 =
      activeList (some T) s.earthquakeData := by
    rw [visLoop_act]
    rfl
  refine ⟨?_, ?_, ?_⟩
  · rw [hveq, applySelection_keys]
    exact cleanupPool_keys_nodup _ _
      (visLoop_keys_nodup tb _ (some T) s.earthquakeData (s, []) hnd)
  · intro id
    rw [hveq]
    rw [← Option.isSome_iff_exists, lookupPool_isSome_iff, applySelection_keys,
        hact, cleanupPool_keys_mem, visLoop_keys_mem]
    constructor
    · rintro ⟨-, hin⟩
      obtain ⟨f, hf, hfid, hfp⟩ := activeList_mem_fid _ _ _ hin
      exact ⟨f, hf, hfid, (passesFilter_some_iff T f.time hT).mp hfp⟩
    · rintro ⟨f, hf, hfid, hft⟩
      have hin : id ∈ activeList (some T) s.earthquakeData := by
        rw [← hfid]
        exact mem_activeList _ _ f hf ((passesFilter_some_iff T f.time hT).mpr hft)
      exact ⟨Or.inr hin, hin⟩
  · intro id e hl hnone
    have hnin : id ∉ activeList (some T) s.earthquakeData := by
      intro hin
      obtain ⟨f, hf, hfid, hfp⟩ := activeList_mem_fid _ _ _ hin
      exact hnone f hf hfid ((passesFilter_some_iff T f.time hT).mp hfp)
    have hunt : lookupPool
        (visLoop tb (refTime (some T) now) (some T) s.earthquakeData (s, [])).1.pool
        id = some e := by
      rw [visLoop_lookup_untouched tb _ (some T) s.earthquakeData (s, []) id hnin]
      exact hl
    have hev := cleanupPool_evicted
      (visLoop tb (refTime (some T) now) (some T) s.earthquakeData (s, [])).2
      (visLoop tb (refTime (some T) now) (some T) s.earthquakeData (s, [])).1
      id e hunt (by rw [hact]; exact hnin)
    obtain ⟨hev1, hev2, hev3, hev4, hev5⟩ := hev
    obtain ⟨p₂, hshape⟩ := applySelection_shape
      (cleanupPool
        (visLoop tb (refTime (some T) now) (some T) s.earthquakeData (s, [])).2
        (visLoop tb (refTime (some T) now) (some T) s.earthquakeData (s, [])).1)
    refine ⟨?_, ?_, ?_, ?_, ?_⟩
    · rw [hveq, lookupPool_eq_none_iff, applySelection_keys]
      rw [lookupPool_eq_none_iff] at hev1
      exact hev1
    · rw [hveq, hshape]
      exact hev2
    · rw [hveq, hshape]
      exact hev3
    · rw [hveq, hshape]
      exact hev4
    · rw [hveq, hshape]
      exact hev5

/-- Witness for the amended C4: one loaded event (id 1, time 100) and a
stale pooled entry under id 5 with tokens 0 and 1; after a pass with
cutoff 100 the event's entry exists, the stale entry is gone, and its
tokens are disposed and out of the group. -/
theorem claim4_amended_cutoff_eviction_witness :
    (∃ e, lookupPool (visualize tbW (some 100) 0 loadedStaleState).pool 1 = some e) ∧
    lookupPool (visualize tbW (some 100) 0 loadedStaleState).pool 5 = none ∧
    (0 : ℕ) ∈ (visualize tbW (some 100) 0 loadedStaleState).disposed ∧
    (0 : ℕ) ∉ (visualize tbW (some 100) 0 loadedStaleState).group := by
  have h := claim4_amended_cutoff_eviction tbW 0 100 loadedStaleState
    (by decide) (by norm_num) (by decide)
  have hev := h.2.2 5 entryW (by decide) (by decide)
  exact ⟨(h.2.1 1).mpr ⟨featW, by decide, rfl, by decide⟩, hev.1, hev.2.1, hev.2.2.2.1⟩

/-!  Sorting and loading lemmas.  -/

theorem mem_insertByTime (f : Feature) (l : List Feature) (x : Feature) :
    x ∈ insertByTime f l ↔ x = f ∨ x ∈ l := by
  induction l with
  | nil => simp [insertByTime]
  | cons g gs ih =>
      rw [insertByTime]
      by_cases h : f.time ≤ g.time
      · rw [if_pos h]
        simp [List.mem_cons]
      · rw [if_neg h]
        simp only [List.mem_cons, ih]
        tauto

theorem mem_sortByTime (l : List Feature) (x : Feature) :
    x ∈ sortByTime l ↔ x ∈ l := by
  induction l with
  | nil => simp [sortByTime]
  | cons f fs ih =>
      rw [sortByTime, mem_insertByTime]
      simp [List.mem_cons, ih]

theorem loadData_shape (features : List Feature) (s : OverlayState) :
    (loadData features s).pool = s.pool ∧
    (loadData features s).group = s.group ∧
    (loadData features s).disposed = s.disposed ∧
    (loadData features s).counter = s.counter ∧
    (loadData features s).earthquakeData = sortByTime features ∧
    (loadData features s).selectedFeatureId = s.selectedFeatureId := by
  unfold loadData
  cases h : sortByTime features with
  | nil => exact ⟨rfl, rfl, rfl, rfl, rfl, rfl⟩
  | cons f rest => exact ⟨rfl, rfl, rfl, rfl, rfl, rfl⟩

theorem optionSameVisual_some_right {x : Option Entry} {q : Entry}
    (h : optionSameVisual x (some q)) :
    ∃ e₂, x = some e₂ ∧ sameVisual e₂ q := by
  cases x with
  | none => cases h
  | some e₂ => exact ⟨e₂, rfl, h⟩

/-- Claim C9 (implicit): `clearData` removes and disposes every child
of the group and resets the event list, time range and cursor, but it
never clears `earthquakeVisualMap`; a later load and `visualize` pass
that encounters an event with a pooled identifier reuses the stale
entry — same sphere and line tokens — and that sphere and line are not
re-added to the scene-graph group. -/
theorem claim9_clear_data_keeps_pool (s : OverlayState) (tb : TerrainBounds)
    (tf : Option ℚ) (now : ℚ) (features : List Feature) (id : ℕ) (e : Entry)
    (hl : lookupPool s.pool id = some e)
    (hg₁ : e.sphereTok ∈ s.group) (hg₂ : e.lineTok ∈ s.group)
    (hc₁ : e.sphereTok < s.counter) (hc₂ : e.lineTok < s.counter)
    (hf : ∃ f, f ∈ features ∧ f.fid = id ∧ passesFilter tf f.time = true) :
    (clearData s).pool = s.pool ∧
    (clearData s).earthquakeData = [] ∧
    (clearData s).timeRangeStart = none ∧
    (clearData s).timeRangeEnd = none ∧
    (clearData s).currentTime = none ∧
    (clearData s).group = [] ∧
    e.sphereTok ∈ (clearData s).disposed ∧
    e.lineTok ∈ (clearData s).disposed ∧
    (∃ e₂, lookupPool
        (visualize tb tf now (loadData features (clearData s))).pool id =
        some e₂ ∧
      e₂.sphereTok = e.sphereTok ∧ e₂.lineTok = e.lineTok) ∧
    e.sphereTok ∉ (visualize tb tf now (loadData features (clearData s))).group ∧
    e.lineTok ∉ (visualize tb tf now (loadData features (clearData s))).group := by
  obtain ⟨f, hfm, hfid, hfp⟩ := hf
  obtain ⟨lp, lg, ld, lc, le, lsel⟩ := loadData_shape features (clearData s)
  have hs₂pool : (loadData features (clearData s)).pool = s.pool := by
    rw [lp]
    rfl
  have hs₂group : (loadData features (clearData s)).group = [] := by
    rw [lg]
    rfl
  have hs₂counter : (loadData features (clearData s)).counter = s.counter := by
    rw [lc]
    rfl
  have hfmem : f ∈ (loadData features (clearData s)).earthquakeData := by
    rw [le, mem_sortByTime]
    exact hfm
  have hne : (loadData features (clearData s)).earthquakeData ≠ [] :=
    List.ne_nil_of_mem hfmem
  have hveq : visualize tb tf now (loadData features (clearData s)) =
      applySelection (cleanupPool
        (visLoop tb (refTime tf now) tf
          (loadData features (clearData s)).earthquakeData
          (loadData features (clearData s), [])).2
        (visLoop tb (refTime tf now) tf
          (loadData features (clearData s)).earthquakeData
          (loadData features (clearData s), [])).1) := by
    rw [visualize, if_neg hne]
  have hact : (visLoop tb (refTime tf now) tf
      (loadData features (clearData s)).earthquakeData
      (loadData features (clearData s), [])).2 =
      activeList tf (loadData features (clearData s)).earthquakeData := by
    rw [visLoop_act]
    rfl
  have hidact : id ∈ activeList tf (loadData features (clearData s)).earthquakeData := by
    rw [← hfid]
    exact mem_activeList tf _ f hfmem hfp
  have hl₂ : lookupPool (loadData features (clearData s), ([] : List ℕ)).1.pool id =
      some e := by
    dsimp only
    rw [hs₂pool]
    exact hl
  obtain ⟨q, hq, hsvq⟩ := visLoop_lookup_pres tb (refTime tf now) tf
    (loadData features (clearData s)).earthquakeData
    (loadData features (clearData s), []) id e hl₂
  have hclean : lookupPool (cleanupPool
      (visLoop tb (refTime tf now) tf
        (loadData features (clearData s)).earthquakeData
        (loadData features (clearData s), [])).2
      (visLoop tb (refTime tf now) tf
        (loadData features (clearData s)).earthquakeData
        (loadData features (clearData s), [])).1).pool id = some q := by
    rw [cleanupPool_lookup_mem _ _ _ (by rw [hact]; exact hidact)]
    exact hq
  have hfinal := applySelection_lookup
    (cleanupPool
      (visLoop tb (refTime tf now) tf
        (loadData features (clearData s)).earthquakeData
        (loadData features (clearData s), [])).2
      (visLoop tb (refTime tf now) tf
        (loadData features (clearData s)).earthquakeData
        (loadData features (clearData s), [])).1) id
  rw [hclean] at hfinal
  obtain ⟨e₂, he₂, hsv₂⟩ := optionSameVisual_some_right hfinal
  have hsv := sameVisual_trans hsv₂ hsvq
  have hgroupfin : ∀ t, t < s.counter →
      t ∉ (visualize tb tf now (loadData features (clearData s))).group := by
    intro t ht hmem
    rw [hveq] at hmem
    obtain ⟨p₂, hshape⟩ := applySelection_shape
      (cleanupPool
        (visLoop tb (refTime tf now) tf
          (loadData features (clearData s)).earthquakeData
          (loadData features (clearData s), [])).2
        (visLoop tb (refTime tf now) tf
          (loadData features (clearData s)).earthquakeData
          (loadData features (clearData s), [])).1)
    rw [hshape] at hmem
    have hmem₂ := cleanupPool_group_sub _ _ _ hmem
    rcases visLoop_group_sub tb (refTime tf now) tf
        (loadData features (clearData s)).earthquakeData
        (loadData features (clearData s), []) t hmem₂ with h | h
    · rw [show (loadData features (clearData s), ([] : List ℕ)).1.group =
          (loadData features (clearData s)).group from rfl, hs₂group] at h
      cases h
    · rw [show (loadData features (clearData s), ([] : List ℕ)).1.counter =
          (loadData features (clearData s)).counter from rfl, hs₂counter] at h
      omega
  refine ⟨rfl, rfl, rfl, rfl, rfl, rfl, ?_, ?_, ?_, ?_, ?_⟩
  · exact List.mem_append_right _ hg₁
  · exact List.mem_append_right _ hg₂
  · refine ⟨e₂, ?_, hsv.1, hsv.2.1⟩
    rw [hveq]
    exact he₂
  · exact hgroupfin e.sphereTok hc₁
  · exact hgroupfin e.lineTok hc₂

/-- Witness for C9: the stale pool of `stale1State` (entry under id 1,
tokens 0 and 1) after `clearData`, a reload of the single event
`featW`, and a `visualize` pass with cutoff 100. -/
theorem claim9_clear_data_keeps_pool_witness :
    (clearData stale1State).pool = stale1State.pool ∧
    (clearData stale1State).group = [] ∧
    (0 : ℕ) ∈ (clearData stale1State).disposed ∧
    (∃ e₂, lookupPool
        (visualize tbW (some 100) 0
          (loadData [featW] (clearData stale1State))).pool 1 = some e₂ ∧
      e₂.sphereTok = entryW.sphereTok ∧ e₂.lineTok = entryW.lineTok) ∧
    (0 : ℕ) ∉ (visualize tbW (some 100) 0
        (loadData [featW] (clearData stale1State))).group := by
  have h := claim9_clear_data_keeps_pool stale1State tbW (some 100) 0 [featW]
    1 entryW (by decide) (by decide) (by decide) (by decide) (by decide)
    ⟨featW, by decide, rfl, by decide⟩
  exact ⟨h.1, h.2.2.2.2.2.1, h.2.2.2.2.2.2.1, h.2.2.2.2.2.2.2.2.1,
    h.2.2.2.2.2.2.2.2.2.1⟩

/-!  Order lemmas for the time sort and the derived time range.  -/

theorem insertByTime_pairwise (f : Feature) (l : List Feature)
    (h : List.Pairwise (fun a b : Feature => a.time ≤ b.time) l) :
    List.Pairwise (fun a b : Feature => a.time ≤ b.time) (insertByTime f l) := by
  induction l with
  | nil => simp [insertByTime]
  | cons g gs ih =>
      rw [insertByTime]
      rcases List.pairwise_cons.mp h with ⟨hg, hgs⟩
      by_cases hle : f.time ≤ g.time
      · rw [if_pos hle]
        refine List.pairwise_cons.mpr ⟨?_, h⟩
        intro x hx
        rcases List.mem_cons.mp hx with hx | hx
        · subst hx
          exact hle
        · exact le_trans hle (hg x hx)
      · rw [if_neg hle]
        refine List.pairwise_cons.mpr ⟨?_, ih hgs⟩
        intro x hx
        rcases (mem_insertByTime f gs x).mp hx with hx | hx
        · subst hx
          exact le_of_not_le hle
        · exact hg x hx

theorem sortByTime_pairwise (l : List Feature) :
    List.Pairwise (fun a b : Feature => a.time ≤ b.time) (sortByTime l) := by
  induction l with
  | nil => simp [sortByTime]
  | cons f fs ih => exact insertByTime_pairwise f (sortByTime fs) ih

theorem foldl_min_le (fs : List Feature) :
    ∀ a : ℚ, fs.foldl (fun m g => min m g.time) a ≤ a ∧
      ∀ f ∈ fs, fs.foldl (fun m g => min m g.time) a ≤ f.time := by
  induction fs with
  | nil =>
      intro a
      exact ⟨le_refl a, fun f hf => absurd hf (List.not_mem_nil f)⟩
  | cons g gs ih =>
      intro a
      rw [List.foldl_cons]
      obtain ⟨h1, h2⟩ := ih (min a g.time)
      refine ⟨le_trans h1 (min_le_left _ _), ?_⟩
      intro f hf
      rcases List.mem_cons.mp hf with hf | hf
      · subst hf
        exact le_trans h1 (min_le_right _ _)
      · exact h2 f hf

theorem foldl_min_mem (fs : List Feature) :
    ∀ a : ℚ, fs.foldl (fun m g => min m g.time) a = a ∨
      ∃ f ∈ fs, fs.foldl (fun m g => min m g.time) a = f.time := by
  induction fs with
  | nil =>
      intro a
      exact Or.inl rfl
  | cons g gs ih =>
      intro a
      rw [List.foldl_cons]
      rcases ih (min a g.time) with h | ⟨f, hf, hfe⟩
      · rcases min_choice a g.time with hm | hm
        · exact Or.inl (h.trans hm)
        · exact Or.inr ⟨g, List.mem_cons_self _ _, h.trans hm⟩
      · exact Or.inr ⟨f, List.mem_cons_of_mem _ hf, hfe⟩

theorem foldl_max_ge (fs : List Feature) :
    ∀ a : ℚ, a ≤ fs.foldl (fun m g => max m g.time) a ∧
      ∀ f ∈ fs, f.time ≤ fs.foldl (fun m g => max m g.time) a := by
  induction fs with
  | nil =>
      intro a
      exact ⟨le_refl a, fun f hf => absurd hf (List.not_mem_nil f)⟩
  | cons g gs ih =>
      intro a
      rw [List.foldl_cons]
      obtain ⟨h1, h2⟩ := ih (max a g.time)
      refine ⟨le_trans (le_max_left _ _) h1, ?_⟩
      intro f hf
      rcases List.mem_cons.mp hf with hf | hf
      · subst hf
        exact le_trans (le_max_right _ _) h1
      · exact h2 f hf

theorem foldl_max_mem (fs : List Feature) :
    ∀ a : ℚ, fs.foldl (fun m g => max m g.time) a = a ∨
      ∃ f ∈ fs, fs.foldl (fun m g => max m g.time) a = f.time := by
  induction fs with
  | nil =>
      intro a
      exact Or.inl rfl
  | cons g gs ih =>
      intro a
      rw [List.foldl_cons]
      rcases ih (max a g.time) with h | ⟨f, hf, hfe⟩
      · rcases max_choice a g.time with hm | hm
        · exact Or.inl (h.trans hm)
        · exact Or.inr ⟨g, List.mem_cons_self _ _, h.trans hm⟩
      · exact Or.inr ⟨f, List.mem_cons_of_mem _ hf, hfe⟩

theorem minTimeD_le (l : List Feature) (f : Feature) (hf : f ∈ l) :
    minTimeD l ≤ f.time := by
  cases l with
  | nil => cases hf
  | cons g gs =>
      rw [minTimeD]
      rcases List.mem_cons.mp hf with h | h
      · subst h
        exact (foldl_min_le gs f.time).1
      · exact (foldl_min_le gs g.time).2 f h

theorem minTimeD_mem (l : List Feature) (hne : l ≠ []) :
    ∃ f ∈ l, minTimeD l = f.time := by
  cases l with
  | nil => exact absurd rfl hne
  | cons g gs =>
      rw [minTimeD]
      rcases foldl_min_mem gs g.time with h | ⟨f, hf, hfe⟩
      · exact ⟨g, List.mem_cons_self _ _, h⟩
      · exact ⟨f, List.mem_cons_of_mem _ hf, hfe⟩

theorem maxTimeD_ge (l : List Feature) (f : Feature) (hf : f ∈ l) :
    f.time ≤ maxTimeD l := by
  cases l with
  | nil => cases hf
  | cons g gs =>
      rw [maxTimeD]
      rcases List.mem_cons.mp hf with h | h
      · subst h
        exact (foldl_max_ge gs f.time).1
      · exact (foldl_max_ge gs g.time).2 f h

theorem maxTimeD_mem (l : List Feature) (hne : l ≠ []) :
    ∃ f ∈ l, maxTimeD l = f.time := by
  cases l with
  | nil => exact absurd rfl hne
  | cons g gs =>
      rw [maxTimeD]
      rcases foldl_max_mem gs g.time with h | ⟨f, hf, hfe⟩
      · exact ⟨g, List.mem_cons_self _ _, h⟩
      · exact ⟨f, List.mem_cons_of_mem _ hf, hfe⟩

theorem getLastD_mem (l : List Feature) (d : Feature) (hne : l ≠ []) :
    l.getLastD d ∈ l := by
  induction l generalizing d with
  | nil => exact absurd rfl hne
  | cons a as ih =>
      rw [List.getLastD_cons]
      cases has : as with
      | nil =>
          subst has
          exact List.mem_cons_self _ _
      | cons b bs =>
          subst has
          exact List.mem_cons_of_mem _ (ih a (List.cons_ne_nil _ _))

theorem pairwise_le_getLastD (l : List Feature) (d : Feature)
    (h : List.Pairwise (fun a b : Feature => a.time ≤ b.time) l) :
    ∀ x ∈ l, x.time ≤ (l.getLastD d).time := by
  induction l generalizing d with
  | nil => intro x hx; cases hx
  | cons a as ih =>
      intro x hx
      rw [List.getLastD_cons]
      rcases List.pairwise_cons.mp h with ⟨ha, has⟩
      rcases List.mem_cons.mp hx with hx | hx
      · subst hx
        cases hcase : as with
        | nil =>
            subst hcase
            exact le_refl _
        | cons b bs =>
            subst hcase
            exact ha _ (getLastD_mem _ x (List.cons_ne_nil _ _))
      · cases hcase : as with
        | nil =>
            subst hcase
            cases hx
        | cons b bs =>
            subst hcase
            exact ih a has x hx

/-- Counterexample to C7: a load that returns zero events replaces the
event list but leaves the previously computed Time Range in place —
the Time Range is not undefined although the loaded event set is
empty. -/
theorem claim7_counterexample :
    (loadData [] staleRangeState).earthquakeData = [] ∧
    (loadData [] staleRangeState).timeRangeStart = some 5 ∧
    (loadData [] staleRangeState).timeRangeEnd = some 10 ∧
    (some (5 : ℚ) ≠ (none : Option ℚ)) := by
  refine ⟨rfl, rfl, rfl, by simp⟩

/-- C7 as amended: after a load returning at least one event the Time
Range is exactly {earliest timestamp, latest timestamp} of that load
and the cursor is reset to the start; a load returning zero events
empties the event list but leaves the Time Range and cursor exactly as
they were (no recomputation, no reset). -/
theorem claim7_amended_load_time_range (features : List Feature)
    (s : OverlayState) :
    (features = [] →
      (loadData features s).earthquakeData = [] ∧
      (loadData features s).timeRangeStart = s.timeRangeStart ∧
      (loadData features s).timeRangeEnd = s.timeRangeEnd ∧
      (loadData features s).currentTime = s.currentTime) ∧
    (features ≠ [] →
      (loadData features s).timeRangeStart = some (minTimeD features) ∧
      (loadData features s).timeRangeEnd = some (maxTimeD features) ∧
      (loadData features s).currentTime = some (minTimeD features)) := by
  constructor
  · intro he
    subst he
    exact ⟨rfl, rfl, rfl, rfl⟩
  · intro hne
    have hsne : sortByTime features ≠ [] := by
      cases features with
      | nil => exact absurd rfl hne
      | cons f fs =>
          exact List.ne_nil_of_mem
            ((mem_sortByTime (f :: fs) f).mpr (List.mem_cons_self _ _))
    cases hsort : sortByTime features with
    | nil => exact absurd hsort hsne
    | cons g rest =>
        have hpw := sortByTime_pairwise features
        rw [hsort] at hpw
        have hgmem : g ∈ features := by
          rw [← mem_sortByTime, hsort]
          exact List.mem_cons_self _ _
        have hgmin : g.time = minTimeD features := by
          obtain ⟨f₀, hf₀, hf₀e⟩ := minTimeD_mem features hne
          have hf₀s : f₀ ∈ g :: rest := by
            rw [← hsort, mem_sortByTime]
            exact hf₀
          refine le_antisymm ?_ (minTimeD_le features g hgmem)
          rcases List.mem_cons.mp hf₀s with h | h
          · rw [hf₀e, h]
          · rw [hf₀e]
            exact (List.pairwise_cons.mp hpw).1 f₀ h
        have hlmem : (g :: rest).getLastD g ∈ features := by
          rw [← mem_sortByTime, hsort]
          exact getLastD_mem _ _ (List.cons_ne_nil _ _)
        have hlmax : ((g :: rest).getLastD g).time = maxTimeD features := by
          obtain ⟨f₁, hf₁, hf₁e⟩ := maxTimeD_mem features hne
          have hf₁s : f₁ ∈ g :: rest := by
            rw [← hsort, mem_sortByTime]
            exact hf₁
          refine le_antisymm (maxTimeD_ge features _ hlmem) ?_
          rw [hf₁e]
          exact pairwise_le_getLastD _ g hpw f₁ hf₁s
        have hload : loadData features s =
            { s with earthquakeData := g :: rest
                     timeRangeStart := some g.time
                     timeRangeEnd := some ((g :: rest).getLastD g).time
                     currentTime := some g.time } := by
          unfold loadData
          rw [hsort]
        rw [hload]
        exact ⟨by rw [hgmin], by rw [hlmax], by rw [hgmin]⟩

/-- Witness for the amended C7 on a one-event load. -/
theorem claim7_amended_load_time_range_witness :
    (loadData [featW] initState).timeRangeStart = some (minTimeD [featW]) ∧
    (loadData [featW] initState).timeRangeEnd = some (maxTimeD [featW]) ∧
    (loadData [featW] initState).currentTime = some (minTimeD [featW]) := by
  exact (claim7_amended_load_time_range [featW] initState).2
    (List.cons_ne_nil _ _)

/-!  Playback lemmas.  -/

theorem visualize_manuallyPaused (tb : TerrainBounds) (tf : Option ℚ)
    (now : ℚ) (s : OverlayState) :
    (visualize tb tf now s).manuallyPaused = s.manuallyPaused := by
  obtain ⟨p, g, d, c, h⟩ := visualize_shape tb tf now s
  rw [h]

theorem visualize_currentTime (tb : TerrainBounds) (tf : Option ℚ)
    (now : ℚ) (s : OverlayState) :
    (visualize tb tf now s).currentTime = s.currentTime := by
  obtain ⟨p, g, d, c, h⟩ := visualize_shape tb tf now s
  rw [h]

theorem visualize_isPlaying (tb : TerrainBounds) (tf : Option ℚ)
    (now : ℚ) (s : OverlayState) :
    (visualize tb tf now s).isPlaying = s.isPlaying := by
  obtain ⟨p, g, d, c, h⟩ := visualize_shape tb tf now s
  rw [h]

theorem animate_not_playing (tb : TerrainBounds) (now : ℚ) (s : OverlayState)
    (h : s.isPlaying = false) : animate tb now s = s := by
  unfold animate
  rw [h]
  rfl

/-- Claim C6: on a tick whose advance reaches or passes the end of a
defined Time Range, the cursor is clamped to exactly the end, playing
stops, and no further tick is scheduled (and a later tick on the
stopped state is a no-op); moreover after any tick the cursor never
remains strictly beyond the range end. -/
theorem claim6_playback_termination (tb : TerrainBounds) (now te ct : ℚ)
    (s : OverlayState) (hp : s.isPlaying = true)
    (he : s.timeRangeEnd = some te) (hc : s.currentTime = some ct) :
    (te ≤ ct + (now - s.lastFrameTime) / 1000 * s.playbackSpeed * (24 * 60 * 60 * 1000) →
      (animate tb now s).currentTime = some te ∧
      (animate tb now s).isPlaying = false ∧
      (animate tb now s).animationScheduled = false ∧
      (∀ (tb₂ : TerrainBounds) (now₂ : ℚ),
        animate tb₂ now₂ (animate tb now s) = animate tb now s)) ∧
    (∀ c, (animate tb now s).currentTime = some c → c ≤ te) := by
  have hbody : animate tb now s =
      (let ctv := s.currentTime.getD 0 +
        (now - s.lastFrameTime) / 1000 * s.playbackSpeed * (24 * 60 * 60 * 1000)
       let reached := decide (s.timeRangeEnd.getD 0 ≤ ctv)
       let s₁ :=
        { s with lastFrameTime := now
                 currentTime := if reached then s.timeRangeEnd else some ctv
                 isPlaying := if reached then false else s.isPlaying }
       let s₂ := visualize tb s₁.currentTime now s₁
       { s₂ with animationScheduled := s₂.isPlaying }) := by
    unfold animate
    rw [hp]
    rfl
  rw [hc, he] at hbody
  simp only [Option.getD_some] at hbody
  constructor
  · intro hreach
    simp only [decide_eq_true hreach, if_true] at hbody
    obtain ⟨p, g, d, c, hsh⟩ := visualize_shape tb (some te) now
      { s with lastFrameTime := now, currentTime := some te, isPlaying := false }
    have hcur : (animate tb now s).currentTime = some te := by
      rw [hbody]
      dsimp only
      rw [visualize_currentTime]
    have hpl : (animate tb now s).isPlaying = false := by
      rw [hbody]
      dsimp only
      rw [visualize_isPlaying]
    have hsch : (animate tb now s).animationScheduled = false := by
      rw [hbody]
      dsimp only
      rw [visualize_isPlaying]
    exact ⟨hcur, hpl, hsch,
      fun tb₂ now₂ => animate_not_playing tb₂ now₂ _ hpl⟩
  · intro c hcfin
    by_cases hreach : te ≤ ct +
        (now - s.lastFrameTime) / 1000 * s.playbackSpeed * (24 * 60 * 60 * 1000)
    · simp only [decide_eq_true hreach, if_true] at hbody
      rw [hbody] at hcfin
      dsimp only at hcfin
      rw [visualize_currentTime] at hcfin
      have : some te = some c := hcfin
      rw [Option.some.inj this]
    · simp only [decide_eq_false hreach, Bool.false_eq_true, if_false] at hbody
      rw [hbody] at hcfin
      dsimp only at hcfin
      rw [visualize_currentTime] at hcfin
      have hcc : ct + (now - s.lastFrameTime) / 1000 * s.playbackSpeed *
          (24 * 60 * 60 * 1000) = c := Option.some.inj hcfin
      rw [← hcc]
      exact le_of_not_le hreach

/-- Witness for C6: a playing state with range end 1000, cursor 999 and
a tick large enough to pass the end. -/
theorem claim6_playback_termination_witness :
    (animate tbW 1 playW).currentTime = some 1000 ∧
    (animate tbW 1 playW).isPlaying = false ∧
    (animate tbW 1 playW).animationScheduled = false := by
  have h := (claim6_playback_termination tbW 1 1000 999 playW rfl rfl rfl).1
    (by norm_num [playW, initState])
  exact ⟨h.1, h.2.1, h.2.2.1⟩

/-!  Manual-pause latch lemmas.  -/

theorem loadData_manuallyPaused (features : List Feature) (s : OverlayState) :
    (loadData features s).manuallyPaused = s.manuallyPaused := by
  unfold loadData
  cases h : sortByTime features with
  | nil => rfl
  | cons f rest => rfl

theorem animate_manuallyPaused (tb : TerrainBounds) (now : ℚ)
    (s : OverlayState) :
    (animate tb now s).manuallyPaused = s.manuallyPaused := by
  unfold animate
  by_cases hp : s.isPlaying = true
  · rw [hp, if_pos rfl]
    dsimp only
    rw [visualize_manuallyPaused]
  · have : s.isPlaying = false := by
      cases hh : s.isPlaying
      · rfl
      · exact absurd hh hp
    rw [this, if_neg (by simp)]

theorem applyOp_manuallyPaused (op : OverlayOp) (s : OverlayState)
    (h : s.manuallyPaused = true) : (applyOp s op).manuallyPaused = true := by
  cases op with
  | playOp tb now =>
      show (play tb now s).manuallyPaused = true
      unfold play
      by_cases h1 : ¬ truthyOpt s.timeRangeStart = true ∨
          ¬ truthyOpt s.timeRangeEnd = true
      · rw [if_pos h1]
        exact h
      · rw [if_neg h1, if_pos h]
        exact h
  | pauseOp => rfl
  | stopOp tb now =>
      show (stop tb now s).manuallyPaused = true
      unfold stop
      rw [visualize_manuallyPaused]
      exact h
  | setTimeOp t tb now =>
      show (setTime t tb now s).manuallyPaused = true
      unfold setTime
      rw [visualize_manuallyPaused]
      exact h
  | clearDataOp => exact h
  | loadDataOp features =>
      show (loadData features s).manuallyPaused = true
      rw [loadData_manuallyPaused]
      exact h
  | setPlaybackSpeedOp v => exact h
  | visualizeOp tb tf now =>
      show (visualize tb tf now s).manuallyPaused = true
      rw [visualize_manuallyPaused]
      exact h
  | animateOp tb now =>
      show (animate tb now s).manuallyPaused = true
      rw [animate_manuallyPaused]
      exact h
  | toggleOp => exact h
  | setBloomLayerOp n => exact h
  | setSelectedOp fid =>
      show (setSelectedEarthquake fid s).manuallyPaused = true
      unfold setSelectedEarthquake
      by_cases heq : s.selectedFeatureId = fid
      · rw [if_pos heq]
        exact h
      · rw [if_neg heq]
        cases s.selectedFeatureId with
        | none =>
            cases fid with
            | none => exact h
            | some f => exact h
        | some old =>
            cases fid with
            | none => exact h
            | some f => exact h
  | clearSelectedOp tb now =>
      show (clearSelectedEarthquake tb now s).manuallyPaused = true
      unfold clearSelectedEarthquake
      cases hsel : s.selectedFeatureId with
      | none => exact h
      | some old =>
          dsimp only
          rw [visualize_manuallyPaused]
          exact h
  | highlightOp fid => exact h
  | unhighlightOp fid => exact h

/-- Claim C10 (implicit): after a `pause()`, the manual-pause flag is
set and no public call of the overlay ever clears it — `play()` returns
early on the flag before reaching the line that would clear it, and
every other method leaves it untouched — so after any sequence of
public calls following the pause, `play()` is a no-op and playback
cannot be restarted. -/
theorem claim10_manual_pause_latch (s : OverlayState) (ops : List OverlayOp)
    (tb : TerrainBounds) (now : ℚ) :
    (ops.foldl applyOp (pause s)).manuallyPaused = true ∧
    play tb now (ops.foldl applyOp (pause s)) = ops.foldl applyOp (pause s) := by
  have hflag : ∀ (l : List OverlayOp) (x : OverlayState),
      x.manuallyPaused = true → (l.foldl applyOp x).manuallyPaused = true := by
    intro l
    induction l with
    | nil =>
        intro x hx
        exact hx
    | cons op l ih =>
        intro x hx
        rw [List.foldl_cons]
        exact ih _ (applyOp_manuallyPaused op x hx)
  have h1 : (ops.foldl applyOp (pause s)).manuallyPaused = true :=
    hflag ops (pause s) rfl
  refine ⟨h1, ?_⟩
  unfold play
  by_cases hg : ¬ truthyOpt (ops.foldl applyOp (pause s)).timeRangeStart = true ∨
      ¬ truthyOpt (ops.foldl applyOp (pause s)).timeRangeEnd = true
  · rw [if_pos hg]
  · rw [if_neg hg, if_pos h1]

end EQOverlay
